import Mathlib

/-!
Verification development for the `pk_edit` Generation-III save-file codec.

The Rust sources are shallowly embedded as follows:

* a byte is a `Nat` (always reduced `% 256` when read from a raw buffer,
  mirroring Rust's `u8`);
* the 128KB backing buffer (`SaveFile.data: Vec<u8>`) is a total function
  `Buf := Nat → Nat`; reads go through `byteAt` (which reduces mod 256) and
  writes through `writeBytes` (which models `copy_from_slice`).  Rust's
  out-of-bounds panics cannot occur on a total function, so theorems carry
  explicit size hypotheses wherever the Rust code relies on slice bounds;
* small fixed-size records (the 80/100-byte Pokémon slot, the 48-byte
  substructure, field arrays) are `List Nat`;
* machine arithmetic (`u16`/`u32` wrap-around, shifts, casts) is `Nat`
  arithmetic with explicit `% 2^16` / `% 2^32`;
* fallible operations return `Except Failure _`; `Result::Err(e)` becomes
  `.error (.typed e)` and a Rust panic (`expect`, `copy_from_slice` length
  mismatch) becomes `.error .panicked`;
* the external reference database (`misc.rs`, a SQLite store: item names and
  ids) is out of scope of the codec (spec §6); the functions `find_item` /
  `item_id_g3` are passed as abstract lookup parameters.
-/

namespace PkEdit

/-- Backing byte buffer (`Vec<u8>` / `&[u8]`), modelled as a total function
from absolute position to byte value. -/
abbrev Buf : Type := Nat → Nat

/-- Read one byte; the `% 256` records the `u8` invariant of the Rust buffer. -/
def byteAt (buf : Buf) (i : Nat) : Nat := buf i % 256

/-- Read `n` consecutive bytes starting at `off` (`&buffer[off..off+n]`). -/
def readBytes (buf : Buf) (off n : Nat) : List Nat :=
  (List.range n).map (fun j => byteAt buf (off + j))

/-- Overwrite the `l.length` bytes at `off` with `l`
(`buffer[off..off+l.len()].copy_from_slice(&l)`). -/
def writeBytes (buf : Buf) (off : Nat) (l : List Nat) : Buf :=
  fun pos => if off ≤ pos ∧ pos < off + l.length then l.getD (pos - off) 0 else buf pos

/-- Rust slice `l[a..b]` of a byte list. -/
def listSlice (l : List Nat) (a b : Nat) : List Nat := (l.drop a).take (b - a)

/-- Little-endian 16-bit read (`LittleEndian::read_u16`). -/
def readU16 (l : List Nat) : Nat := l.getD 0 0 + 256 * l.getD 1 0

/-- Little-endian 32-bit read (`LittleEndian::read_u32`). -/
def readU32 (l : List Nat) : Nat :=
  l.getD 0 0 + 256 * l.getD 1 0 + 65536 * l.getD 2 0 + 16777216 * l.getD 3 0

/-- Little-endian bytes of a `u16` (`u16::to_le_bytes`). -/
def toLeBytes2 (n : Nat) : List Nat := [n % 256, n / 256 % 256]

/-- Little-endian bytes of a `u32` (`u32::to_le_bytes`). -/
def toLeBytes4 (n : Nat) : List Nat :=
  [n % 256, n / 256 % 256, n / 65536 % 256, n / 16777216 % 256]

/-- Rust's `slice::chunks(c)`: split into consecutive chunks of size `c`, the
last chunk possibly shorter.  (`chunks(0)` panics in Rust and is never used;
we return `[]` there.) -/
def chunkList : Nat → List α → List (List α)
  | _, [] => []
  | 0, _ :: _ => []
  | c + 1, x :: xs =>
      (x :: xs).take (c + 1) :: chunkList (c + 1) ((x :: xs).drop (c + 1))
termination_by _ l => l.length
decreasing_by simp only [List.length_drop, List.length_cons]; omega

/-- Replace the slice `l[i..i+r.length]` by `r`
(`l[i..i+r.len()].copy_from_slice(&r)`; faithful when `i + r.length ≤ l.length`). -/
def replaceSlice (l : List Nat) (i : Nat) (r : List Nat) : List Nat :=
  l.take i ++ r ++ l.drop (i + r.length)

theorem byteAt_lt (buf : Buf) (i : Nat) : byteAt buf i < 256 :=
  Nat.mod_lt _ (by norm_num)

theorem readBytes_length (buf : Buf) (off n : Nat) : (readBytes buf off n).length = n := by
  simp [readBytes]

theorem readBytes_getD (buf : Buf) (off n j : Nat) (h : j < n) :
    (readBytes buf off n).getD j 0 = byteAt buf (off + j) := by
  simp [readBytes, List.getD, List.getElem?_map, List.getElem?_range, h]

theorem readBytes_add (buf : Buf) (off a b : Nat) :
    readBytes buf off (a + b) = readBytes buf off a ++ readBytes buf (off + a) b := by
  simp only [readBytes, List.range_add, List.map_append, List.map_map]
  congr 1
  apply List.map_congr_left
  intro j _
  simp [Function.comp, Nat.add_assoc]

theorem writeBytes_of_inside (buf : Buf) (off : Nat) (l : List Nat) (pos : Nat)
    (h1 : off ≤ pos) (h2 : pos < off + l.length) :
    writeBytes buf off l pos = l.getD (pos - off) 0 := by
  simp [writeBytes, h1, h2]

theorem writeBytes_of_outside (buf : Buf) (off : Nat) (l : List Nat) (pos : Nat)
    (h : pos < off ∨ off + l.length ≤ pos) :
    writeBytes buf off l pos = buf pos := by
  simp only [writeBytes, ite_eq_right_iff]
  intro hc
  omega

theorem chunkList_getD (c : Nat) (l : List α) (i : Nat) :
    (chunkList c l).getD i [] = (l.drop (c * i)).take c := by
  induction c, l using chunkList.induct generalizing i with
  | case1 c => simp [chunkList]
  | case2 x xs => simp [chunkList]
  | case3 c x xs ih =>
      match i with
      | 0 => simp [chunkList]
      | i + 1 =>
          simp only [chunkList, List.getD_cons_succ, ih, List.drop_drop]
          congr 2
          simp only [Nat.succ_eq_add_one]
          ring

theorem chunkList_length_exact (c : Nat) (l : List α) (k : Nat)
    (hc : 0 < c) (h : l.length = c * k) : (chunkList c l).length = k := by
  induction c, l using chunkList.induct generalizing k with
  | case1 c =>
      simp only [List.length_nil] at h
      have : k = 0 := by
        rcases Nat.mul_eq_zero.mp h.symm with h0 | h0
        · omega
        · exact h0
      simp [chunkList, this]
  | case2 x xs => omega
  | case3 c x xs ih =>
      have hk : 0 < k := by
        by_contra hk0
        have : k = 0 := by omega
        subst this
        simp at h
      have hlen : ((x :: xs).drop (c + 1)).length = (c + 1) * (k - 1) := by
        simp only [List.length_drop, List.length_cons]
        have := h
        simp only [List.length_cons] at this
        rw [this]
        cases k with
        | zero => omega
        | succ k' => simp [Nat.mul_succ]
      have := ih (k - 1) (by omega) hlen
      simp only [chunkList, List.length_cons, this]
      omega

theorem getD_lt_of_forall_lt (l : List Nat) (h : ∀ x ∈ l, x < 256) (i : Nat) :
    l.getD i 0 < 256 := by
  rcases Nat.lt_or_ge i l.length with hi | hi
  · rw [List.getD_eq_getElem l 0 hi]
    exact h _ (List.getElem_mem hi)
  · rw [List.getD_eq_default l 0 hi]
    norm_num

theorem readU16_lt (l : List Nat) (h : ∀ x ∈ l, x < 256) : readU16 l < 65536 := by
  have h0 := getD_lt_of_forall_lt l h 0
  have h1 := getD_lt_of_forall_lt l h 1
  simp only [readU16]
  omega

theorem readU32_lt (l : List Nat) (h : ∀ x ∈ l, x < 256) : readU32 l < 4294967296 := by
  have h0 := getD_lt_of_forall_lt l h 0
  have h1 := getD_lt_of_forall_lt l h 1
  have h2 := getD_lt_of_forall_lt l h 2
  have h3 := getD_lt_of_forall_lt l h 3
  simp only [readU32]
  omega

theorem readU32_toLeBytes4 (x : Nat) (hx : x < 4294967296) :
    readU32 (toLeBytes4 x) = x := by
  simp only [readU32, toLeBytes4, List.getD_cons_zero, List.getD_cons_succ]
  omega

theorem toLeBytes4_readU32 (a b c d : Nat)
    (ha : a < 256) (hb : b < 256) (hc : c < 256) (hd : d < 256) :
    toLeBytes4 (readU32 [a, b, c, d]) = [a, b, c, d] := by
  simp only [toLeBytes4, readU32, List.getD_cons_zero, List.getD_cons_succ]
  refine List.ext_getElem (by simp) ?_
  intro i h1 h2
  match i with
  | 0 => simp; omega
  | 1 => simp; omega
  | 2 => simp; omega
  | 3 => simp; omega

theorem readU16_toLeBytes2 (x : Nat) (hx : x < 65536) : readU16 (toLeBytes2 x) = x := by
  simp only [readU16, toLeBytes2, List.getD_cons_zero, List.getD_cons_succ]
  omega

theorem foldl_add_mod (m : Nat) (l : List Nat) (a : Nat) (ha : a < m) :
    l.foldl (fun x y => (x + y) % m) a = (a + l.sum) % m := by
  induction l generalizing a with
  | nil => simpa using (Nat.mod_eq_of_lt ha).symm
  | cons y ys ih =>
      have hm : 0 < m := Nat.lt_of_le_of_lt (Nat.zero_le a) ha
      simp only [List.foldl_cons, List.sum_cons]
      rw [ih _ (Nat.mod_lt _ hm), Nat.mod_add_mod]
      congr 1
      omega

/-! ### Entity-record (Pokémon) codec, from `src/data_structure/pokemon.rs` -/

/-- XOR (de/en)cryption of the 48-byte substructure, 4 bytes at a time
(`fn pokemon_data_encryption` in `pokemon.rs`): each 4-byte chunk is read as a
little-endian `u32`, XORed with the key, and written back little-endian.
The Rust code writes into a caller-provided 48-byte output buffer; since the
input is always exactly 48 bytes, each chunk has length 4 and the output is
the concatenation of the XORed chunks.  A trailing chunk shorter than 4 bytes
would make `read_u32` panic in Rust; it never occurs and is passed through
unchanged here. -/
def pokemon_data_encryption (key : Nat) : List Nat → List Nat
  | a :: b :: c :: d :: rest =>
      toLeBytes4 (readU32 [a, b, c, d] ^^^ key) ++ pokemon_data_encryption key rest
  | rest => rest

theorem pokemon_data_encryption_of_short (key : Nat) (rest : List Nat)
    (h : ∀ (a b c d : Nat) (r : List Nat), rest = a :: b :: c :: d :: r → False) :
    pokemon_data_encryption key rest = rest := by
  match rest with
  | [] => rfl
  | [a] => rfl
  | [a, b] => rfl
  | [a, b, c] => rfl
  | a :: b :: c :: d :: r => exact absurd rfl (h a b c d r)

theorem pokemon_data_encryption_length (key : Nat) (l : List Nat) :
    (pokemon_data_encryption key l).length = l.length := by
  induction l using pokemon_data_encryption.induct key with
  | case1 a b c d rest ih =>
      show (toLeBytes4 _ ++ pokemon_data_encryption key rest).length = _
      simp only [List.length_append, ih, toLeBytes4]
      simp only [List.length_cons, List.length_nil]
      omega
  | case2 rest h => rw [pokemon_data_encryption_of_short key rest h]

theorem xor_lt_4294967296 (a b : Nat) (ha : a < 4294967296) (hb : b < 4294967296) :
    a ^^^ b < 4294967296 := by
  have : (4294967296 : Nat) = 2 ^ 32 := by norm_num
  rw [this] at ha hb ⊢
  exact Nat.xor_lt_two_pow ha hb

theorem pokemon_data_encryption_involutive (key : Nat) (hkey : key < 4294967296)
    (l : List Nat) (h : ∀ x ∈ l, x < 256) :
    pokemon_data_encryption key (pokemon_data_encryption key l) = l := by
  induction l using pokemon_data_encryption.induct key with
  | case1 a b c d rest ih =>
      have ha : a < 256 := h a (by simp)
      have hb : b < 256 := h b (by simp)
      have hc : c < 256 := h c (by simp)
      have hd : d < 256 := h d (by simp)
      have hrest : ∀ x ∈ rest, x < 256 := fun x hx => h x (by simp [hx])
      have hw : readU32 [a, b, c, d] < 4294967296 := by
        apply readU32_lt
        intro x hx
        simp only [List.mem_cons, List.not_mem_nil, or_false] at hx
        rcases hx with rfl | rfl | rfl | rfl <;> assumption
      have hx : readU32 [a, b, c, d] ^^^ key < 4294967296 :=
        xor_lt_4294967296 _ _ hw hkey
      show pokemon_data_encryption key
        (toLeBytes4 (readU32 [a, b, c, d] ^^^ key) ++ pokemon_data_encryption key rest) = _
      have hsplit : toLeBytes4 (readU32 [a, b, c, d] ^^^ key) ++
          pokemon_data_encryption key rest =
          (readU32 [a, b, c, d] ^^^ key) % 256 ::
          (readU32 [a, b, c, d] ^^^ key) / 256 % 256 ::
          (readU32 [a, b, c, d] ^^^ key) / 65536 % 256 ::
          (readU32 [a, b, c, d] ^^^ key) / 16777216 % 256 ::
          pokemon_data_encryption key rest := by rw [toLeBytes4]; rfl
      rw [hsplit]
      show toLeBytes4 (readU32 [(readU32 [a, b, c, d] ^^^ key) % 256,
          (readU32 [a, b, c, d] ^^^ key) / 256 % 256,
          (readU32 [a, b, c, d] ^^^ key) / 65536 % 256,
          (readU32 [a, b, c, d] ^^^ key) / 16777216 % 256] ^^^ key) ++
          pokemon_data_encryption key (pokemon_data_encryption key rest) = _
      have hback : [(readU32 [a, b, c, d] ^^^ key) % 256,
          (readU32 [a, b, c, d] ^^^ key) / 256 % 256,
          (readU32 [a, b, c, d] ^^^ key) / 65536 % 256,
          (readU32 [a, b, c, d] ^^^ key) / 16777216 % 256] =
          toLeBytes4 (readU32 [a, b, c, d] ^^^ key) := by rw [toLeBytes4]
      rw [hback, readU32_toLeBytes4 _ hx, Nat.xor_cancel_right,
        toLeBytes4_readU32 a b c d ha hb hc hd, ih hrest]
      rfl
  | case2 rest hne =>
      rw [pokemon_data_encryption_of_short key rest hne,
        pokemon_data_encryption_of_short key rest hne]

/-- Substructure of an entity record (`struct PokemonData` in `pokemon.rs`):
the 48 decrypted bytes plus the four group offsets assigned by
`order_data_substructure`.  (`_offset` is an unused constant in the source.) -/
structure PokemonData where
  data : List Nat
  growth_offset : Nat := 0
  attacks_offset : Nat := 0
  ev_offset : Nat := 0
  miscellaneous_offset : Nat := 0
deriving Repr, DecidableEq

/-- Stat fields mutated by `Pokemon::save_stats` / read by `Pokemon::init_stats`
(`struct Stats` in `pokemon.rs`).  The base-stat and nature-modifier fields are
omitted: they are read from the external reference database / are `f32` data
and are neither read nor written by any byte-level operation modelled here. -/
structure Stats where
  hp_ev : Nat := 0
  attack_ev : Nat := 0
  defense_ev : Nat := 0
  sp_attack_ev : Nat := 0
  sp_defense_ev : Nat := 0
  speed_ev : Nat := 0
  hp_iv : Nat := 0
  attack_iv : Nat := 0
  defense_iv : Nat := 0
  speed_iv : Nat := 0
  sp_attack_iv : Nat := 0
  sp_defense_iv : Nat := 0
deriving Repr, DecidableEq

/-- An in-memory entity record (`struct Pokemon` in `pokemon.rs`). -/
structure Pokemon where
  offset : Nat
  personality_value : List Nat
  ot_id : List Nat
  nickname : List Nat
  language : List Nat
  misc_flags : List Nat
  ot_name : List Nat
  markings : List Nat
  checksum : List Nat
  padding : List Nat
  pokemon_data : PokemonData
  stats : Stats
deriving Repr, DecidableEq

/-- Group-offset assignment for the 24 permutations of the four 12-byte
substructure groups, selected by `personality_value % 24`
(`fn order_data_substructure` in `pokemon.rs`; the Rust function is a cascade
of 24 `if key == k` blocks on a `&mut PokemonData`, rendered here as an
equivalent conditional chain returning the updated record). -/
def order_data_substructure (key : Nat) (pd : PokemonData) : PokemonData :=
  if key = 0 then
    { pd with growth_offset := 0, attacks_offset := 12, ev_offset := 24, miscellaneous_offset := 36 }
  else if key = 1 then
    { pd with growth_offset := 0, attacks_offset := 12, miscellaneous_offset := 24, ev_offset := 36 }
  else if key = 2 then
    { pd with growth_offset := 0, ev_offset := 12, attacks_offset := 24, miscellaneous_offset := 36 }
  else if key = 3 then
    { pd with growth_offset := 0, ev_offset := 12, miscellaneous_offset := 24, attacks_offset := 36 }
  else if key = 4 then
    { pd with growth_offset := 0, miscellaneous_offset := 12, attacks_offset := 24, ev_offset := 36 }
  else if key = 5 then
    { pd with growth_offset := 0, miscellaneous_offset := 12, ev_offset := 24, attacks_offset := 36 }
  else if key = 6 then
    { pd with attacks_offset := 0, growth_offset := 12, ev_offset := 24, miscellaneous_offset := 36 }
  else if key = 7 then
    { pd with attacks_offset := 0, growth_offset := 12, miscellaneous_offset := 24, ev_offset := 36 }
  else if key = 8 then
    { pd with attacks_offset := 0, ev_offset := 12, growth_offset := 24, miscellaneous_offset := 36 }
  else if key = 9 then
    { pd with attacks_offset := 0, ev_offset := 12, miscellaneous_offset := 24, growth_offset := 36 }
  else if key = 10 then
    { pd with attacks_offset := 0, miscellaneous_offset := 12, growth_offset := 24, ev_offset := 36 }
  else if key = 11 then
    { pd with attacks_offset := 0, miscellaneous_offset := 12, ev_offset := 24, growth_offset := 36 }
  else if key = 12 then
    { pd with ev_offset := 0, growth_offset := 12, attacks_offset := 24, miscellaneous_offset := 36 }
  else if key = 13 then
    { pd with ev_offset := 0, growth_offset := 12, miscellaneous_offset := 24, attacks_offset := 36 }
  else if key = 14 then
    { pd with ev_offset := 0, attacks_offset := 12, growth_offset := 24, miscellaneous_offset := 36 }
  else if key = 15 then
    { pd with ev_offset := 0, attacks_offset := 12, miscellaneous_offset := 24, growth_offset := 36 }
  else if key = 16 then
    { pd with ev_offset := 0, miscellaneous_offset := 12, growth_offset := 24, attacks_offset := 36 }
  else if key = 17 then
    { pd with ev_offset := 0, miscellaneous_offset := 12, attacks_offset := 24, growth_offset := 36 }
  else if key = 18 then
    { pd with miscellaneous_offset := 0, growth_offset := 12, attacks_offset := 24, ev_offset := 36 }
  else if key = 19 then
    { pd with miscellaneous_offset := 0, growth_offset := 12, ev_offset := 24, attacks_offset := 36 }
  else if key = 20 then
    { pd with miscellaneous_offset := 0, attacks_offset := 12, growth_offset := 24, ev_offset := 36 }
  else if key = 21 then
    { pd with miscellaneous_offset := 0, attacks_offset := 12, ev_offset := 24, growth_offset := 36 }
  else if key = 22 then
    { pd with miscellaneous_offset := 0, ev_offset := 12, growth_offset := 24, attacks_offset := 36 }
  else if key = 23 then
    { pd with miscellaneous_offset := 0, ev_offset := 12, attacks_offset := 24, growth_offset := 36 }
  else pd

/-- Readback of EV and IV stat fields from the substructure
(`Pokemon::init_stats`, byte-level part).  The base stats and the nature
modifier read from the external reference database do not influence any
modelled field. -/
def init_stats (p : Pokemon) : Pokemon :=
  let ev := p.pokemon_data.ev_offset
  let iv := p.pokemon_data.miscellaneous_offset
  let d := p.pokemon_data.data
  let ivs := readU32 (listSlice d (iv + 4) (iv + 8))
  { p with stats :=
    { hp_ev := d.getD ev 0
      attack_ev := d.getD (ev + 1) 0
      defense_ev := d.getD (ev + 2) 0
      sp_attack_ev := d.getD (ev + 4) 0
      sp_defense_ev := d.getD (ev + 5) 0
      speed_ev := d.getD (ev + 3) 0
      hp_iv := ivs &&& 0x1F
      attack_iv := (ivs &&& 0x3E0) >>> 5
      defense_iv := (ivs &&& 0x7C00) >>> 10
      speed_iv := (ivs &&& 0xF8000) >>> 15
      sp_attack_iv := (ivs &&& 0x1F00000) >>> 20
      sp_defense_iv := (ivs &&& 0x3E000000) >>> 25 } }

/-- Decode an 80-byte slot (`Pokemon::new`): derive the XOR key from trainer
id and personality value, decrypt the 48-byte substructure, assign the group
offsets from `personality_value % 24`, copy the header fields and initialise
the stats. -/
def Pokemon.new (offset : Nat) (buffer : List Nat) : Pokemon :=
  let pdata := listSlice buffer 0x20 0x50
  let ecryption_key := readU32 (listSlice buffer 0x04 0x08) ^^^ readU32 (listSlice buffer 0x00 0x04)
  let data := pokemon_data_encryption ecryption_key pdata
  let personality_value_modulo := readU32 (listSlice buffer 0x00 0x04) % 24
  let pd := order_data_substructure personality_value_modulo { data := data }
  init_stats
    { offset := offset
      personality_value := listSlice buffer 0x00 0x04
      ot_id := listSlice buffer 0x04 0x08
      nickname := listSlice buffer 0x08 0x12
      language := listSlice buffer 0x12 0x13
      misc_flags := listSlice buffer 0x13 0x14
      ot_name := listSlice buffer 0x14 0x1B
      markings := listSlice buffer 0x1B 0x1C
      checksum := listSlice buffer 0x1C 0x1E
      padding := listSlice buffer 0x1E 0x20
      pokemon_data := pd
      stats := {} }

/-- Re-encode the record to its 80-byte on-disk form (`Pokemon::raw_data`):
re-encrypt the substructure with the key `personality_value XOR ot_id` and lay
the header fields back at their fixed offsets.  The Rust code writes each
field into a zeroed `[u8; 80]` with `copy_from_slice`; for a record decoded by
`Pokemon::new` from an 80-byte slot every field has its nominal width, so the
result is the straight concatenation. -/
def Pokemon.raw_data (p : Pokemon) : List Nat :=
  let ecryption_key := readU32 p.personality_value ^^^ readU32 p.ot_id
  let data := pokemon_data_encryption ecryption_key p.pokemon_data.data
  p.personality_value ++ p.ot_id ++ p.nickname ++ p.language ++ p.misc_flags ++
    p.ot_name ++ p.markings ++ p.checksum ++ p.padding ++ data

/-- Raw species id, read little-endian at the Growth group offset
(`Pokemon::species_id`). -/
def species_id (p : Pokemon) : Nat :=
  let offset := p.pokemon_data.growth_offset
  readU16 (listSlice p.pokemon_data.data offset (offset + 2))

/-- Substructure checksum (`PokemonData::checksum`): sum of the 48 decrypted
bytes as little-endian 16-bit words with `u16` wrap-around. -/
def PokemonData.checksum (pd : PokemonData) : Nat :=
  (chunkList 2 pd.data).foldl (fun acc chunk => (acc + readU16 chunk) % 65536) 0

/-- Write the stat fields back into the substructure (`Pokemon::save_stats`):
six single-byte EV writes (the `u16` field is cast `as u8`, i.e. `% 256`) and
the packed 30-bit IV word, rebuilt by OR-ing the shifted 5-bit fields into a
`u32` (each `u16` field is cast `as u32`; the `u32` shifts discard bits above
bit 31, hence the `% 2^32`). -/
def save_stats (p : Pokemon) : Pokemon :=
  let ev_offset := p.pokemon_data.ev_offset
  let iv_offset := p.pokemon_data.miscellaneous_offset
  let d0 := replaceSlice p.pokemon_data.data ev_offset [p.stats.hp_ev % 256]
  let d1 := replaceSlice d0 (ev_offset + 1) [p.stats.attack_ev % 256]
  let d2 := replaceSlice d1 (ev_offset + 2) [p.stats.defense_ev % 256]
  let d3 := replaceSlice d2 (ev_offset + 4) [p.stats.sp_attack_ev % 256]
  let d4 := replaceSlice d3 (ev_offset + 5) [p.stats.sp_defense_ev % 256]
  let d5 := replaceSlice d4 (ev_offset + 3) [p.stats.speed_ev % 256]
  let ivs : Nat :=
    p.stats.hp_iv % 65536 |||
    ((p.stats.attack_iv % 65536) <<< 5) % 4294967296 |||
    ((p.stats.defense_iv % 65536) <<< 10) % 4294967296 |||
    ((p.stats.speed_iv % 65536) <<< 15) % 4294967296 |||
    ((p.stats.sp_attack_iv % 65536) <<< 20) % 4294967296 |||
    ((p.stats.sp_defense_iv % 65536) <<< 25) % 4294967296
  let d6 := replaceSlice d5 (iv_offset + 4) (toLeBytes4 ivs)
  { p with pokemon_data := { p.pokemon_data with data := d6 } }

/-- Recompute and store the header checksum (`Pokemon::update_checksum`):
first write the stats back (`save_stats`), then store the substructure
checksum of the resulting data little-endian in the 2-byte header field. -/
def update_checksum (p : Pokemon) : Pokemon :=
  let p1 := save_stats p
  { p1 with checksum := toLeBytes2 p1.pokemon_data.checksum }

theorem mem_listSlice (l : List Nat) (a b : Nat) (x : Nat) (h : x ∈ listSlice l a b) :
    x ∈ l :=
  List.mem_of_mem_drop (List.mem_of_mem_take h)

theorem listSlice_append (l : List Nat) (a b c : Nat) (hab : a ≤ b) (hbc : b ≤ c) :
    listSlice l a b ++ listSlice l b c = listSlice l a c := by
  have hc : c - a = (b - a) + (c - b) := by omega
  simp only [listSlice, hc, List.take_add]
  have hd : List.drop b l = List.drop (b - a) (List.drop a l) := by
    rw [List.drop_drop]
    congr 1
    omega
  rw [hd]

theorem listSlice_zero_length (l : List Nat) (n : Nat) (h : l.length = n) :
    listSlice l 0 n = l := by
  subst h
  simp [listSlice]

theorem order_data_substructure_data (key : Nat) (pd : PokemonData) :
    (order_data_substructure key pd).data = pd.data := by
  rw [order_data_substructure]
  simp only [apply_ite PokemonData.data, ite_self]

theorem readU32_listSlice_lt (l : List Nat) (h : ∀ x ∈ l, x < 256) (a b : Nat) :
    readU32 (listSlice l a b) < 4294967296 :=
  readU32_lt _ (fun x hx => h x (mem_listSlice l a b x hx))

/-- Decode-then-encode round trip: `Pokemon::raw_data` of `Pokemon::new` of an
80-byte slot reproduces the slot byte-for-byte, for every personality value
(hence every permutation index). -/
theorem raw_data_new (off : Nat) (buffer : List Nat) (hlen : buffer.length = 80)
    (hbytes : ∀ x ∈ buffer, x < 256) :
    (Pokemon.new off buffer).raw_data = buffer := by
  have hkey : readU32 (listSlice buffer 0x04 0x08) ^^^ readU32 (listSlice buffer 0x00 0x04)
      < 4294967296 :=
    xor_lt_4294967296 _ _ (readU32_listSlice_lt buffer hbytes 0x04 0x08)
      (readU32_listSlice_lt buffer hbytes 0x00 0x04)
  have hpdata : ∀ x ∈ listSlice buffer 0x20 0x50, x < 256 :=
    fun x hx => hbytes x (mem_listSlice buffer 0x20 0x50 x hx)
  have hcomm : readU32 (listSlice buffer 0x00 0x04) ^^^ readU32 (listSlice buffer 0x04 0x08) =
      readU32 (listSlice buffer 0x04 0x08) ^^^ readU32 (listSlice buffer 0x00 0x04) :=
    Nat.xor_comm _ _
  simp only [Pokemon.raw_data, init_stats, Pokemon.new, order_data_substructure_data]
  rw [hcomm]
  rw [pokemon_data_encryption_involutive _ hkey _ hpdata]
  simp only [List.append_assoc]
  rw [listSlice_append buffer 0x1E 0x20 0x50 (by norm_num) (by norm_num)]
  rw [listSlice_append buffer 0x1C 0x1E 0x50 (by norm_num) (by norm_num)]
  rw [listSlice_append buffer 0x1B 0x1C 0x50 (by norm_num) (by norm_num)]
  rw [listSlice_append buffer 0x14 0x1B 0x50 (by norm_num) (by norm_num)]
  rw [listSlice_append buffer 0x13 0x14 0x50 (by norm_num) (by norm_num)]
  rw [listSlice_append buffer 0x12 0x13 0x50 (by norm_num) (by norm_num)]
  rw [listSlice_append buffer 0x08 0x12 0x50 (by norm_num) (by norm_num)]
  rw [listSlice_append buffer 0x04 0x08 0x50 (by norm_num) (by norm_num)]
  rw [listSlice_append buffer 0x00 0x04 0x50 (by norm_num) (by norm_num)]
  exact listSlice_zero_length buffer 0x50 hlen

/-! ### Save-file layer, from `src/data_structure/save_data.rs`.

`SaveFile::new` stores the raw bytes and two fixed arrays of 14 sections at
offsets `i * 0x1000` (block A) and `0xE000 + i * 0x1000` (block B); the
section arrays never depend on the data, so a `SaveFile` is modelled by its
backing buffer `Buf` alone, with the two arrays as the constants below. -/

/-- One 4096-byte physical section (`struct Section`). -/
structure Section where
  offset : Nat
  size : Nat
deriving Repr, DecidableEq

instance : Inhabited Section := ⟨⟨0, 0⟩⟩

/-- Section ids as `u16` codes; `From<u16> for SectionID` maps 0–13 to the 14
named sections and everything else to `NA`, which the `Into<i32>` table codes
as 14.  We use the integer codes directly: 0 `TrainerInfo`, 1 `TeamItems`, …,
5–13 the nine PC-buffer sections, 14 `NA`. -/
def sectionIdOfU16 (n : Nat) : Nat := if n ≤ 13 then n else 14

/-- Save index of a section (`Section::save_index`): little-endian `u32` at
relative offset 0x0FFC. -/
def Section.save_index (s : Section) (buf : Buf) : Nat :=
  readU32 (readBytes buf (s.offset + 0x0FFC) 4)

/-- Type id of a section (`Section::id`): little-endian `u16` at relative
offset 0x0FF4, converted through `SectionID::from`. -/
def Section.id (s : Section) (buf : Buf) : Nat :=
  sectionIdOfU16 (readU16 (readBytes buf (s.offset + 0x0FF4) 2))

/-- Data payload of a section (`Section::data`): the first
`SECTION_DATA_SIZE = 0x0FF4 = 4084` bytes of the 4096-byte region. -/
def Section.data (s : Section) (buf : Buf) : List Nat :=
  readBytes buf s.offset 0x0FF4

/-- Recompute and store the section checksum (`Section::write_checksum`):
a 32-bit accumulator summed over the payload 4 little-endian bytes at a time
with wrap-around (`overflowing_add`), folded once by adding the upper 16 bits
to the lower 16 bits (again with `u16` wrap-around), stored little-endian at
relative offset 0x0FF6.  (The Rust function returns `Result` but never errs.) -/
def Section.write_checksum (s : Section) (buf : Buf) : Buf :=
  let data := s.data buf
  let checksum32 :=
    (chunkList 4 data).foldl (fun acc chunk => (acc + readU32 chunk) % 4294967296) 0
  let checksum := (checksum32 % 65536 + checksum32 / 65536) % 65536
  writeBytes buf (s.offset + 0x0FF6) (toLeBytes2 checksum)

/-- Block A: 14 sections at offsets `GAME_SAVE_A_OFFSET + i * SECTION_SIZE`. -/
def game_save_a : List Section :=
  (List.range 14).map (fun i => ⟨0x000000 + i * 0x1000, 0x1000⟩)

/-- Block B: 14 sections at offsets `GAME_SAVE_B_OFFSET + i * SECTION_SIZE`. -/
def game_save_b : List Section :=
  (List.range 14).map (fun i => ⟨0x00E000 + i * 0x1000, 0x1000⟩)

/-- Select the current save block (`SaveFile::current_save`): compare the save
indices of `game_save_a[0]` and `game_save_b[0]`; `u32::MAX` on A selects B,
a strictly greater A index selects A, everything else selects B. -/
def current_save (buf : Buf) : List Section :=
  let save_index_a := ((game_save_a.getD 0 default).save_index buf)
  let save_index_b := ((game_save_b.getD 0 default).save_index buf)
  if save_index_a = 4294967295 then game_save_b
  else if save_index_a > save_index_b then game_save_a
  else game_save_b

/-- Find the current block section with a given type id (`SaveFile::get_section`). -/
def get_section (buf : Buf) (id : Nat) : Option Section :=
  (current_save buf).find? (fun s => s.id buf = id)

/-- Typed errors of the save-data layer (`enum SaveDataError`; only the
variants reachable from the modelled operations are carried, with payloads
reduced to the identifying data). -/
inductive SaveDataError where
  | sectionNotFound (id : Nat)
  | invalidDataLength (expected found : Nat)
deriving Repr, DecidableEq

/-- Outcome of a fallible operation: a Rust panic (`expect`, slice-length
mismatch in `copy_from_slice`) or a typed `Err` value surfaced to the caller.
The distinction matters: only `.typed` errors are "surfaced as typed
failures" in the sense of the spec. -/
inductive Failure where
  | panicked
  | typed (e : SaveDataError)
deriving Repr, DecidableEq

instance {e a : Type} [DecidableEq e] [DecidableEq a] : DecidableEq (Except e a) :=
  fun x y =>
    match x, y with
    | .error u, .error v =>
        if h : u = v then isTrue (by rw [h]) else isFalse (by intro hh; cases hh; exact h rfl)
    | .ok u, .ok v =>
        if h : u = v then isTrue (by rw [h]) else isFalse (by intro hh; cases hh; exact h rfl)
    | .error _, .ok _ => isFalse (by intro hh; cases hh)
    | .ok _, .error _ => isFalse (by intro hh; cases hh)

/-- The five inventory pockets (`enum Pocket`). -/
inductive Pocket where
  | items
  | pokeballs
  | berries
  | tms
  | key
deriving Repr, DecidableEq

/-- Pocket byte ranges inside the TeamItems payload, by game code
(`fn pocket_address`): Ruby/Sapphire is 0, FireRed/LeafGreen is 1, anything
else is Emerald. -/
def pocket_address (pocket : Pocket) (game_code : Nat) : Nat × Nat :=
  match pocket with
  | .items =>
      if game_code = 0 then (0x0560, 0x05B0)
      else if game_code = 1 then (0x0310, 0x03B8)
      else (0x0560, 0x05D8)
  | .pokeballs =>
      if game_code = 0 then (0x0600, 0x0640)
      else if game_code = 1 then (0x0430, 0x0464)
      else (0x0650, 0x0690)
  | .berries =>
      if game_code = 0 then (0x0740, 0x7F8)
      else if game_code = 1 then (0x054C, 0x5F8)
      else (0x0790, 0x848)
  | .tms =>
      if game_code = 0 then (0x0640, 0x0740)
      else if game_code = 1 then (0x0464, 0x054C)
      else (0x0690, 0x0790)
  | .key =>
      if game_code = 0 then (0x05B0, 0x0600)
      else if game_code = 1 then (0x03B8, 0x0430)
      else (0x05D8, 0x0650)

/-- Game code (`SaveFile::game_code`, public): little-endian `u32` at offset
0x00AC of the TrainerInfo payload.  A missing TrainerInfo section panics
(`.expect`), it is not a typed error. -/
def game_code (buf : Buf) : Except Failure Nat :=
  match get_section buf 0 with
  | none => .error .panicked
  | some s => .ok (readU32 (listSlice (s.data buf) 0x00AC (0x00AC + 4)))

/-- Game code (`SaveFile::get_game_code`, private): same read, but a missing
TrainerInfo section is the typed error `SectionNotFound` (`ok_or`). -/
def get_game_code (buf : Buf) : Except Failure Nat :=
  match get_section buf 0 with
  | none => .error (.typed (.sectionNotFound 0))
  | some s => .ok (readU32 (listSlice (s.data buf) 0x00AC (0x00AC + 4)))

/-- Trainer name (`SaveFile::ot_name`): bytes 0..7 of the TrainerInfo payload;
panics when the section is missing. -/
def ot_name (buf : Buf) : Except Failure (List Nat) :=
  match get_section buf 0 with
  | none => .error .panicked
  | some s => .ok (listSlice (s.data buf) 0x0000 7)

/-- Trainer id (`SaveFile::ot_id`): bytes 0x0A..0x0E of the TrainerInfo
payload; panics when the section is missing. -/
def ot_id (buf : Buf) : Except Failure (List Nat) :=
  match get_section buf 0 with
  | none => .error .panicked
  | some s => .ok (listSlice (s.data buf) 0x000A (0x000A + 4))

/-- Security key (`SaveFile::security_key`): 0 for Ruby/Sapphire, the `u32` at
0x0AF8 of TrainerInfo for FireRed/LeafGreen (`.expect` panic when the section
is missing), the game code itself for Emerald.  (The Rust function returns
`u32` and can only fail by panicking inside `game_code`.) -/
def security_key (buf : Buf) : Except Failure Nat :=
  match game_code buf with
  | .error e => .error e
  | .ok gc =>
      if gc = 0 then .ok 0
      else if gc = 1 then
        match get_section buf 0 with
        | none => .error .panicked
        | some s => .ok (readU32 (listSlice (s.data buf) 0x0AF8 (0x0AF8 + 4)))
      else .ok gc

/-- Lower 16 bits of the security key (`SaveFile::security_key_lower`:
`read_u16` of the first two little-endian bytes). -/
def security_key_lower (buf : Buf) : Except Failure Nat :=
  match security_key buf with
  | .error e => .error e
  | .ok k => .ok (k % 65536)

/-- Decrypt a pocket byte range (`SaveFile::decrypt_pocket`): each 4-byte
chunk is item id (`u16`) followed by the XOR-masked quantity; a short trailing
chunk is the typed error `InvalidDataLength`.  The item-name lookup
`find_item` (external SQLite database) is an abstract parameter; a lookup miss
becomes `"Unknown"` (`unwrap_or_else`). -/
def decrypt_pocket (find_item : Nat → Option String) :
    List Nat → Nat → Except Failure (List (String × Nat))
  | a :: b :: c :: d :: rest, security_key =>
      match decrypt_pocket find_item rest security_key with
      | .error e => .error e
      | .ok tail =>
          .ok (((find_item (readU16 [a, b])).getD "Unknown",
            readU16 [c, d] ^^^ security_key) :: tail)
  | [], _ => .ok []
  | other, _ => .error (.typed (.invalidDataLength 4 other.length))

/-- Encrypt a pocket entry list (`SaveFile::encrypt_pocket`): for each entry,
the item id (external lookup `item_id_g3`, miss becomes 0, a `u16`) is written
little-endian, followed by the XOR-masked quantity little-endian.  The Rust
function returns `Result` but never errs. -/
def encrypt_pocket (item_id_g3 : String → Option Nat)
    (pocket : List (String × Nat)) (security_key : Nat) : List Nat :=
  pocket.foldl
    (fun acc entry =>
      acc ++ toLeBytes2 ((item_id_g3 entry.1).getD 0 % 65536) ++
        toLeBytes2 (entry.2 ^^^ security_key)) []

/-- Read and decrypt one pocket byte range (`SaveFile::read_pocket`): a
missing TeamItems section is the typed `SectionNotFound` error (`ok_or`). -/
def read_pocket (find_item : Nat → Option String) (buf : Buf) (start fin : Nat) :
    Except Failure (List (String × Nat)) :=
  match security_key_lower buf with
  | .error e => .error e
  | .ok key =>
      match get_section buf 1 with
      | none => .error (.typed (.sectionNotFound 1))
      | some s => decrypt_pocket find_item (listSlice (s.data buf) start fin) key

/-- Read a pocket (`SaveFile::pocket`): the pocket range is computed from the
(panicking) public `game_code`. -/
def pocket (find_item : Nat → Option String) (buf : Buf) (p : Pocket) :
    Except Failure (List (String × Nat)) :=
  match game_code buf with
  | .error e => .error e
  | .ok gc => read_pocket find_item buf (pocket_address p gc).1 (pocket_address p gc).2

/-- Write a pocket back (`SaveFile::save_pocket`): encrypt the entries, splice
them into the pocket range of the TeamItems payload and recompute that
section checksum.  A missing TeamItems section is the typed `SectionNotFound`
error; `copy_from_slice` panics when the encrypted length differs from the
range length. -/
def save_pocket (item_id_g3 : String → Option Nat) (buf : Buf) (p : Pocket)
    (pocket_list : List (String × Nat)) : Except Failure Buf :=
  match game_code buf with
  | .error e => .error e
  | .ok gc =>
      match security_key_lower buf with
      | .error e => .error e
      | .ok key =>
          match get_section buf 1 with
          | none => .error (.typed (.sectionNotFound 1))
          | some s =>
              let encrypted_bag := encrypt_pocket item_id_g3 pocket_list key
              if encrypted_bag.length =
                  (pocket_address p gc).2 - (pocket_address p gc).1 then
                .ok (s.write_checksum
                  (writeBytes buf (s.offset + (pocket_address p gc).1) encrypted_bag))
              else .error .panicked

/-- Decoding loop of `SaveFile::get_party`: `for (i, chunk) in
chunks(100).enumerate()` with slot offsets `base + i * 100`. -/
def party_slots (base : Nat) : Nat → List (List Nat) → List Pokemon
  | _, [] => []
  | i, chunk :: rest => Pokemon.new (base + i * 100) chunk :: party_slots base (i + 1) rest

/-- Read the 6-slot party (`SaveFile::get_party`): the team array offset in
the TeamItems payload depends on the game code (read via the typed
`get_game_code`); the TeamItems section itself is accessed with `.expect`
and therefore panics when missing. -/
def get_party (buf : Buf) : Except Failure (List Pokemon) :=
  match get_game_code buf with
  | .error e => .error e
  | .ok gc =>
      match get_section buf 1 with
      | none => .error .panicked
      | some s =>
          if gc = 1 then
            .ok (party_slots (s.offset + 0x0038) 0
              (chunkList 100 (listSlice (s.data buf) 0x0038 0x0290)))
          else
            .ok (party_slots (s.offset + 0x0238) 0
              (chunkList 100 (listSlice (s.data buf) 0x0238 0x0490)))

/-! ### PC buffer, from `src/data_structure/save_data.rs` (`struct PCBuffer`) -/

/-- The PC buffer: the nine storage sections and the logical concatenation of
their payloads. -/
structure PCBuffer where
  buffer : List Section
  data : List Nat

/-- Build the logical PC buffer (`PCBuffer::new`): concatenate, for each of
the nine sections in order, 2000 bytes (`PC_BUFFER_I_SECTION_SIZE`) when its
type id is 13 (`PCbufferI`) and 3968 bytes (`PC_BUFFER_SECTION_SIZE`)
otherwise. -/
def PCBuffer.new (buffer : List Section) (data_buffer : Buf) : PCBuffer :=
  { buffer := buffer
    data := buffer.foldl
      (fun acc s =>
        if s.id data_buffer = 13 then acc ++ readBytes data_buffer s.offset 0x7D0
        else acc ++ readBytes data_buffer s.offset 0xF80) [] }

/-- Decoding loop of `PCBuffer::pc_box`: `for (i, pokemon) in
pc.chunks(80).enumerate()` with slot offsets `0x0004 + number * 2400 + i * 80`
into the logical buffer. -/
def pc_slots (number : Nat) : Nat → List (List Nat) → List Pokemon
  | _, [] => []
  | i, chunk :: rest =>
      Pokemon.new (0x0004 + number * 2400 + i * 80) chunk :: pc_slots number (i + 1) rest

/-- Read one PC box (`PCBuffer::pc_box`): the 2400-byte window `number` of the
region `data[0x0004..0x8344]`, decoded as 80-byte slots.  (`nth(number)`
panics when the box number is out of range; the model returns the empty box.) -/
def pc_box (pc : PCBuffer) (number : Nat) : List Pokemon :=
  let boxes := chunkList 2400 (listSlice pc.data 0x0004 0x8344)
  pc_slots number 0 (chunkList 80 (boxes.getD number []))

/-- Write-back loop of `PCBuffer::save_pokemon`: for chunk `i` of the logical
buffer, copy it to section `i`'s region and recompute that section's
checksum.  (Rust indexes `self.buffer[i]` and copies into a target of 2000
bytes for `i == 8` / 3968 bytes otherwise; `copy_from_slice` requires the
chunk to have exactly that length, which holds for the well-formed buffers the
theorems quantify over.) -/
def pc_save_loop (sections : List Section) : Nat → List (List Nat) → Buf → Buf
  | _, [], buf => buf
  | i, chunk :: rest, buf =>
      let s := sections.getD i default
      pc_save_loop sections (i + 1) rest (s.write_checksum (writeBytes buf s.offset chunk))

/-- Save one Pokémon into the PC (`PCBuffer::save_pokemon`): splice its
80-byte raw form into the logical buffer at its recorded offset, then
re-split the logical buffer across the nine physical sections
(`chunks(PC_BUFFER_SECTION_SIZE)`) and recompute each section checksum. -/
def PCBuffer.save_pokemon (pc : PCBuffer) (p : Pokemon) (buf : Buf) : PCBuffer × Buf :=
  let data := replaceSlice pc.data p.offset (listSlice p.raw_data 0 80)
  let buf2 := pc_save_loop pc.buffer 0 (chunkList 0xF80 data) buf
  ({ pc with data := data }, buf2)

/-! ### Characterisation of the section checksum -/

theorem chunkList_append_exact (c : Nat) (hc : 0 < c) (l r : List α)
    (hl : l.length = c) : chunkList c (l ++ r) = l :: chunkList c r := by
  match c, hc with
  | c + 1, _ =>
      match l, hl with
      | x :: xs, hl =>
          show chunkList (c + 1) (x :: (xs ++ r)) = _
          rw [chunkList]
          have h1 : (x :: (xs ++ r)).take (c + 1) = x :: xs := by
            have : (x :: (xs ++ r)) = (x :: xs) ++ r := rfl
            rw [this, ← hl, List.take_left]
          have h2 : (x :: (xs ++ r)).drop (c + 1) = r := by
            have : (x :: (xs ++ r)) = (x :: xs) ++ r := rfl
            rw [this, ← hl, List.drop_left]
          rw [h1, h2]

/-- The 4-byte little-endian words of `n` chunks read at `off`. -/
def checksum_words (buf : Buf) (off n : Nat) : List Nat :=
  (List.range n).map (fun i => readU32 (readBytes buf (off + 4 * i) 4))

/-- One upper-to-lower 16-bit fold with `u16` wrap-around. -/
def fold16 (c : Nat) : Nat := (c % 65536 + c / 65536) % 65536

/-- The checksum value specified by the algorithm: sum all 4-byte
little-endian words of the first `4 * n` payload bytes with 32-bit
wrap-around, then fold the upper into the lower 16 bits once. -/
def section_checksum_over (buf : Buf) (off n : Nat) : Nat :=
  fold16 ((checksum_words buf off n).sum % 4294967296)

theorem chunkList_readBytes (buf : Buf) (off n : Nat) :
    chunkList 4 (readBytes buf off (4 * n)) =
      (List.range n).map (fun i => readBytes buf (off + 4 * i) 4) := by
  induction n generalizing off with
  | zero => simp [readBytes, chunkList]
  | succ n ih =>
      have hsplit : readBytes buf off (4 * (n + 1)) =
          readBytes buf off 4 ++ readBytes buf (off + 4) (4 * n) := by
        have : 4 * (n + 1) = 4 + 4 * n := by ring
        rw [this, readBytes_add]
      rw [hsplit, chunkList_append_exact 4 (by norm_num) _ _ (readBytes_length buf off 4),
        ih (off + 4), List.range_succ_eq_map, List.map_cons, List.map_map]
      congr 1
      apply List.map_congr_left
      intro i _
      congr 1
      omega

theorem section_checksum_foldl (buf : Buf) (off n : Nat) :
    (chunkList 4 (readBytes buf off (4 * n))).foldl
        (fun acc chunk => (acc + readU32 chunk) % 4294967296) 0 =
      (checksum_words buf off n).sum % 4294967296 := by
  rw [chunkList_readBytes, List.foldl_map]
  have := foldl_add_mod 4294967296
    ((List.range n).map (fun i => readU32 (readBytes buf (off + 4 * i) 4))) 0 (by norm_num)
  rw [List.foldl_map] at this
  rw [this]
  simp [checksum_words]

/-- What `Section::write_checksum` stores and where: the two little-endian
bytes of the specified checksum of the first 4084 payload bytes go to relative
offsets 0x0FF6 and 0x0FF7, and no other byte changes. -/
theorem write_checksum_spec (s : Section) (buf : Buf) :
    (s.write_checksum buf) (s.offset + 0x0FF6) =
        section_checksum_over buf s.offset 1021 % 256 ∧
      (s.write_checksum buf) (s.offset + 0x0FF7) =
        section_checksum_over buf s.offset 1021 / 256 % 256 ∧
      ∀ pos, pos ≠ s.offset + 0x0FF6 → pos ≠ s.offset + 0x0FF7 →
        (s.write_checksum buf) pos = buf pos := by
  have hdata : s.data buf = readBytes buf s.offset (4 * 1021) := by
    simp [Section.data]
  have hval : (chunkList 4 (s.data buf)).foldl
      (fun acc chunk => (acc + readU32 chunk) % 4294967296) 0 =
      (checksum_words buf s.offset 1021).sum % 4294967296 := by
    rw [hdata, section_checksum_foldl]
  have hover : section_checksum_over buf s.offset 1021 =
      ((checksum_words buf s.offset 1021).sum % 4294967296 % 65536 +
        (checksum_words buf s.offset 1021).sum % 4294967296 / 65536) % 65536 := rfl
  refine ⟨?_, ?_, ?_⟩
  · rw [Section.write_checksum]
    simp only [hval]
    rw [writeBytes_of_inside _ _ _ _ (by omega)
      (by simp only [toLeBytes2, List.length_cons, List.length_nil]; omega)]
    simp [toLeBytes2, hover]
  · rw [Section.write_checksum]
    simp only [hval]
    rw [writeBytes_of_inside _ _ _ _ (by omega)
      (by simp only [toLeBytes2, List.length_cons, List.length_nil]; omega)]
    simp only [toLeBytes2, hover]
    have : s.offset + 0x0FF7 - (s.offset + 0x0FF6) = 1 := by omega
    rw [this]
    rfl
  · intro pos h1 h2
    rw [Section.write_checksum]
    apply writeBytes_of_outside
    simp only [toLeBytes2, List.length_cons, List.length_nil]
    omega

theorem replaceSlice_of_slice (l : List Nat) (i n : Nat) (h : i + n ≤ l.length) :
    replaceSlice l i (listSlice l i (i + n)) = l := by
  have hlen : (listSlice l i (i + n)).length = n := by
    simp only [listSlice, List.length_take, List.length_drop]
    omega
  have h1 : i + n - i = n := by omega
  rw [replaceSlice, hlen, listSlice, h1]
  have h2 : l.drop (i + n) = (l.drop i).drop n := by
    rw [List.drop_drop]
  rw [h2, List.append_assoc, List.take_append_drop]
  exact List.take_append_drop i l

/-- Frame property of the write-back loop: if every chunk holds exactly the
bytes the backing buffer already has at the destination section, the loop
changes nothing outside the checksum bytes of the touched sections (positions
`offset + 0x0FF6/0x0FF7`).  `E` collects the positions where the running
buffer `b` is already allowed to differ from the reference `buf`. -/
theorem pc_save_loop_frame (chunks : List (List Nat)) (secs : List Section)
    (i : Nat) (b buf : Buf) (E : Nat → Prop)
    (hchunk : ∀ j, j < chunks.length → ∀ k, k < (chunks.getD j []).length →
      (chunks.getD j []).getD k 0 = buf ((secs.getD (i + j) default).offset + k))
    (hb : ∀ pos, ¬ E pos → b pos = buf pos) :
    ∀ pos, ¬ E pos →
      (∀ j, j < chunks.length →
        pos ≠ (secs.getD (i + j) default).offset + 0x0FF6 ∧
        pos ≠ (secs.getD (i + j) default).offset + 0x0FF7) →
      pc_save_loop secs i chunks b pos = buf pos := by
  induction chunks generalizing i b E with
  | nil => exact fun pos hE _ => hb pos hE
  | cons chunk rest ih =>
      intro pos hE hchk
      show pc_save_loop secs (i + 1) rest
        (((secs.getD i default).write_checksum
          (writeBytes b (secs.getD i default).offset chunk))) pos = buf pos
      have hs0 := hchk 0 (by simp)
      simp only [Nat.add_zero] at hs0
      refine ih (i + 1) _
        (fun q => E q ∨ q = (secs.getD i default).offset + 0x0FF6 ∨
          q = (secs.getD i default).offset + 0x0FF7) ?_ ?_ pos ?_ ?_
      · intro j hj k hk
        have := hchunk (j + 1) (by simpa using Nat.succ_lt_succ hj) k
        simp only [List.getD_cons_succ] at this
        have harr : i + 1 + j = i + (j + 1) := by omega
        rw [harr]
        exact this (by simpa using hk)
      · intro q hq
        have hqE : ¬ E q := fun hh => hq (Or.inl hh)
        have hq6 : q ≠ (secs.getD i default).offset + 0x0FF6 := fun hh => hq (Or.inr (Or.inl hh))
        have hq7 : q ≠ (secs.getD i default).offset + 0x0FF7 := fun hh => hq (Or.inr (Or.inr hh))
        have hframe := (write_checksum_spec (secs.getD i default)
          (writeBytes b (secs.getD i default).offset chunk)).2.2 q hq6 hq7
        rw [hframe]
        rcases Nat.lt_or_ge q (secs.getD i default).offset with hlt | hge
        · rw [writeBytes_of_outside _ _ _ _ (Or.inl hlt)]
          exact hb q hqE
        · rcases Nat.lt_or_ge q ((secs.getD i default).offset + chunk.length) with hin | hout
          · rw [writeBytes_of_inside _ _ _ _ hge hin]
            have := hchunk 0 (by simp) (q - (secs.getD i default).offset) (by
              simp only [List.getD_cons_zero]
              omega)
            simp only [List.getD_cons_zero, Nat.add_zero] at this
            rw [this]
            congr 1
            omega
          · rw [writeBytes_of_outside _ _ _ _ (Or.inr hout)]
            exact hb q hqE
      · intro hh
        rcases hh with hh | hh | hh
        exacts [hE hh, hs0.1 hh, hs0.2 hh]
      · intro j hj
        have := hchk (j + 1) (by simpa using Nat.succ_lt_succ hj)
        have harr : i + (j + 1) = i + 1 + j := by omega
        rw [harr] at this
        exact this

theorem getD_take (l : List Nat) (n i : Nat) (h : i < n) :
    (l.take n).getD i 0 = l.getD i 0 := by
  simp [List.getD, List.getElem?_take, h]

theorem readU32_take (l : List Nat) (n : Nat) (h : 4 ≤ n) :
    readU32 (l.take n) = readU32 l := by
  simp only [readU32]
  rw [getD_take l n 0 (by omega), getD_take l n 1 (by omega),
    getD_take l n 2 (by omega), getD_take l n 3 (by omega)]

theorem readU16_take (l : List Nat) (n : Nat) (h : 2 ≤ n) :
    readU16 (l.take n) = readU16 l := by
  simp only [readU16]
  rw [getD_take l n 0 (by omega), getD_take l n 1 (by omega)]

theorem readU32_listSlice (l : List Nat) (a b : Nat) (h : a + 4 ≤ b) :
    readU32 (listSlice l a b) = readU32 (l.drop a) := by
  rw [listSlice, readU32_take _ _ (by omega)]

theorem readU16_listSlice (l : List Nat) (a b : Nat) (h : a + 2 ≤ b) :
    readU16 (listSlice l a b) = readU16 (l.drop a) := by
  rw [listSlice, readU16_take _ _ (by omega)]

theorem pokemon_data_encryption_bytes_lt (key : Nat) (l : List Nat)
    (h : ∀ x ∈ l, x < 256) : ∀ x ∈ pokemon_data_encryption key l, x < 256 := by
  induction l using pokemon_data_encryption.induct key with
  | case1 a b c d rest ih =>
      intro x hx
      have hrest : ∀ x ∈ rest, x < 256 := fun y hy => h y (by simp [hy])
      show x < 256
      have : pokemon_data_encryption key (a :: b :: c :: d :: rest) =
          toLeBytes4 (readU32 [a, b, c, d] ^^^ key) ++ pokemon_data_encryption key rest := rfl
      rw [this] at hx
      rcases List.mem_append.mp hx with hx | hx
      · simp only [toLeBytes4, List.mem_cons, List.not_mem_nil, or_false] at hx
        rcases hx with rfl | rfl | rfl | rfl <;> exact Nat.mod_lt _ (by norm_num)
      · exact ih hrest x hx
  | case2 rest hne =>
      rw [pokemon_data_encryption_of_short key rest hne]
      exact h

theorem drop4_cons (a b c d : Nat) (t : List Nat) (k : Nat) :
    (a :: b :: c :: d :: t).drop (k + 4) = t.drop k := rfl

theorem pokemon_data_encryption_word (key : Nat) (hkey : key < 4294967296) :
    ∀ (i : Nat) (l : List Nat), (∀ x ∈ l, x < 256) → 4 * (i + 1) ≤ l.length →
      readU32 ((pokemon_data_encryption key l).drop (4 * i)) =
        readU32 (l.drop (4 * i)) ^^^ key := by
  intro i
  induction i with
  | zero =>
      intro l h hlen
      match l, hlen with
      | a :: b :: c :: d :: rest, _ =>
          have hw : readU32 [a, b, c, d] < 4294967296 := by
            apply readU32_lt
            intro x hx
            simp only [List.mem_cons, List.not_mem_nil, or_false] at hx
            rcases hx with rfl | rfl | rfl | rfl <;>
              exact h _ (by simp)
          show readU32 ((toLeBytes4 (readU32 [a, b, c, d] ^^^ key) ++
            pokemon_data_encryption key rest).drop 0) = readU32 ((a :: b :: c :: d :: rest).drop 0) ^^^ key
          simp only [List.drop_zero]
          have happ : readU32 (toLeBytes4 (readU32 [a, b, c, d] ^^^ key) ++
              pokemon_data_encryption key rest) =
              readU32 (toLeBytes4 (readU32 [a, b, c, d] ^^^ key)) := by
            simp [readU32, toLeBytes4]
          rw [happ, readU32_toLeBytes4 _ (xor_lt_4294967296 _ _ hw hkey)]
          have hr : readU32 (a :: b :: c :: d :: rest) = readU32 [a, b, c, d] := by
            simp [readU32]
          rw [hr]
  | succ i ih =>
      intro l h hlen
      match l, hlen with
      | a :: b :: c :: d :: rest, hlen =>
          have hrest : ∀ x ∈ rest, x < 256 := fun y hy => h y (by simp [hy])
          have hlen2 : 4 * (i + 1) ≤ rest.length := by
            simp only [List.length_cons] at hlen
            omega
          have hstep : 4 * (i + 1) = 4 * i + 4 := by ring
          have hdl : (pokemon_data_encryption key (a :: b :: c :: d :: rest)).drop (4 * (i + 1)) =
              (pokemon_data_encryption key rest).drop (4 * i) := by
            show (toLeBytes4 (readU32 [a, b, c, d] ^^^ key) ++
              pokemon_data_encryption key rest).drop (4 * (i + 1)) = _
            rw [hstep, toLeBytes4]
            exact drop4_cons _ _ _ _ _ _
          have hdr : (a :: b :: c :: d :: rest).drop (4 * (i + 1)) = rest.drop (4 * i) := by
            rw [hstep]
            exact drop4_cons _ _ _ _ _ _
          rw [hdl, hdr]
          exact ih rest hrest hlen2

theorem order_data_substructure_five (pd : PokemonData) :
    order_data_substructure 5 pd =
      { pd with growth_offset := 0, miscellaneous_offset := 12,
                ev_offset := 24, attacks_offset := 36 } := by
  rw [order_data_substructure]
  norm_num

theorem readU16_eq_readU32_mod (l : List Nat) (h : ∀ x ∈ l, x < 256) :
    readU16 l = readU32 l % 65536 := by
  have h0 := getD_lt_of_forall_lt l h 0
  have h1 := getD_lt_of_forall_lt l h 1
  simp only [readU16, readU32]
  omega

/-! ### Claims -/

/-- C1: decoding an 80-byte entity slot with `Pokemon::new` and re-encoding it
with `Pokemon::raw_data`, without any mutation in between, reproduces the
original 80 bytes exactly (the stored checksum bytes included), for every
personality value and hence all 24 permutation indices. -/
theorem claim_C1 (off : Nat) (buffer : List Nat) (hlen : buffer.length = 80)
    (hbytes : ∀ x ∈ buffer, x < 256) :
    (Pokemon.new off buffer).raw_data = buffer :=
  raw_data_new off buffer hlen hbytes

/-- Witness for C1 at a concrete 80-byte slot. -/
theorem claim_C1_witness :
    ((List.range 80).map (fun i => (3 * i + 7) % 256)).length = 80 ∧
      (∀ x ∈ (List.range 80).map (fun i => (3 * i + 7) % 256), x < 256) ∧
      (Pokemon.new 17 ((List.range 80).map (fun i => (3 * i + 7) % 256))).raw_data =
        (List.range 80).map (fun i => (3 * i + 7) % 256) :=
  ⟨by decide, by decide, claim_C1 17 _ (by decide) (by decide)⟩

/-- C4: decoding derives the XOR key as the little-endian 32-bit trainer id
XOR the little-endian 32-bit personality value and XOR-decrypts the 48-byte
substructure 4 bytes at a time with it; for every slot whose personality value
satisfies `personality_value % 24 = 5` the four groups get physical offsets
Growth 0, Miscellaneous 12, EV 24, Attacks 36, and the species id is read at
the Growth offset, i.e. it equals the low 16 bits of the first decrypted
word. -/
theorem claim_C4 (off : Nat) (buffer : List Nat) (hlen : buffer.length = 80)
    (hbytes : ∀ x ∈ buffer, x < 256)
    (hmod : readU32 (listSlice buffer 0x00 0x04) % 24 = 5) :
    (Pokemon.new off buffer).pokemon_data.growth_offset = 0 ∧
      (Pokemon.new off buffer).pokemon_data.miscellaneous_offset = 12 ∧
      (Pokemon.new off buffer).pokemon_data.ev_offset = 24 ∧
      (Pokemon.new off buffer).pokemon_data.attacks_offset = 36 ∧
      (∀ i, i < 12 →
        readU32 ((Pokemon.new off buffer).pokemon_data.data.drop (4 * i)) =
          readU32 ((listSlice buffer 0x20 0x50).drop (4 * i)) ^^^
            (readU32 (listSlice buffer 0x04 0x08) ^^^ readU32 (listSlice buffer 0x00 0x04))) ∧
      species_id (Pokemon.new off buffer) =
        (readU32 (listSlice buffer 0x20 0x24) ^^^
          (readU32 (listSlice buffer 0x04 0x08) ^^^ readU32 (listSlice buffer 0x00 0x04))) % 65536 := by
  have hkey : readU32 (listSlice buffer 0x04 0x08) ^^^ readU32 (listSlice buffer 0x00 0x04)
      < 4294967296 :=
    xor_lt_4294967296 _ _ (readU32_listSlice_lt buffer hbytes 0x04 0x08)
      (readU32_listSlice_lt buffer hbytes 0x00 0x04)
  have hpbytes : ∀ x ∈ listSlice buffer 0x20 0x50, x < 256 :=
    fun x hx => hbytes x (mem_listSlice buffer 0x20 0x50 x hx)
  have hplen : (listSlice buffer 0x20 0x50).length = 48 := by
    simp only [listSlice, List.length_take, List.length_drop, hlen]
    omega
  have hpd : (Pokemon.new off buffer).pokemon_data =
      order_data_substructure 5
        { data := pokemon_data_encryption
            (readU32 (listSlice buffer 0x04 0x08) ^^^ readU32 (listSlice buffer 0x00 0x04))
            (listSlice buffer 0x20 0x50) } := by
    simp only [Pokemon.new, init_stats]
    rw [hmod]
  have hdata : (Pokemon.new off buffer).pokemon_data.data =
      pokemon_data_encryption
        (readU32 (listSlice buffer 0x04 0x08) ^^^ readU32 (listSlice buffer 0x00 0x04))
        (listSlice buffer 0x20 0x50) := by
    rw [hpd, order_data_substructure_data]
  have hword : ∀ i, i < 12 →
      readU32 ((Pokemon.new off buffer).pokemon_data.data.drop (4 * i)) =
        readU32 ((listSlice buffer 0x20 0x50).drop (4 * i)) ^^^
          (readU32 (listSlice buffer 0x04 0x08) ^^^ readU32 (listSlice buffer 0x00 0x04)) := by
    intro i hi
    rw [hdata]
    apply pokemon_data_encryption_word _ hkey i _ hpbytes
    omega
  refine ⟨?_, ?_, ?_, ?_, hword, ?_⟩
  · rw [hpd, order_data_substructure_five]
  · rw [hpd, order_data_substructure_five]
  · rw [hpd, order_data_substructure_five]
  · rw [hpd, order_data_substructure_five]
  · have hgrow : (Pokemon.new off buffer).pokemon_data.growth_offset = 0 := by
      rw [hpd, order_data_substructure_five]
    have hdbytes : ∀ x ∈ (Pokemon.new off buffer).pokemon_data.data, x < 256 := by
      rw [hdata]
      exact pokemon_data_encryption_bytes_lt _ _ hpbytes
    have hw0 := hword 0 (by norm_num)
    simp only [Nat.mul_zero, List.drop_zero] at hw0
    rw [species_id, hgrow]
    rw [readU16_listSlice _ _ _ (by norm_num), List.drop_zero,
      readU16_eq_readU32_mod _ hdbytes, hw0]
    congr 2
    rw [readU32_listSlice buffer 0x20 0x24 (by norm_num), listSlice,
      readU32_take _ _ (by norm_num)]

/-- Witness for C4 at a concrete slot with personality value 5 (`5 % 24 = 5`). -/
theorem claim_C4_witness :
    (5 :: 0 :: 0 :: 0 :: 1 :: List.replicate 75 2).length = 80 ∧
      (∀ x ∈ (5 :: 0 :: 0 :: 0 :: 1 :: List.replicate 75 2), x < 256) ∧
      readU32 (listSlice (5 :: 0 :: 0 :: 0 :: 1 :: List.replicate 75 2) 0x00 0x04) % 24 = 5 ∧
      species_id (Pokemon.new 0 (5 :: 0 :: 0 :: 0 :: 1 :: List.replicate 75 2)) =
        (readU32 (listSlice (5 :: 0 :: 0 :: 0 :: 1 :: List.replicate 75 2) 0x20 0x24) ^^^
          (readU32 (listSlice (5 :: 0 :: 0 :: 0 :: 1 :: List.replicate 75 2) 0x04 0x08) ^^^
            readU32 (listSlice (5 :: 0 :: 0 :: 0 :: 1 :: List.replicate 75 2) 0x00 0x04))) % 65536 :=
  ⟨by decide, by decide, by decide,
    (claim_C4 0 _ (by decide) (by decide) (by decide)).2.2.2.2.2⟩

/-- C5: the entity-record substructure checksum equals the sum of the 48
decrypted bytes as 2-byte little-endian words with 16-bit wrap-around;
`update_checksum` stores exactly this value of its (post-`save_stats`) data in
the 2-byte header checksum field; and `Pokemon::new` performs no checksum
validation: it copies the stored checksum bytes from the slot unconditionally,
whatever their value. -/
theorem claim_C5 :
    (∀ pd : PokemonData,
        pd.checksum = ((chunkList 2 pd.data).map readU16).sum % 65536) ∧
      (∀ p : Pokemon,
        (update_checksum p).checksum =
          toLeBytes2
            (((chunkList 2 (update_checksum p).pokemon_data.data).map readU16).sum % 65536)) ∧
      (∀ off buffer, (Pokemon.new off buffer).checksum = listSlice buffer 0x1C 0x1E) := by
  have hsum : ∀ pd : PokemonData,
      pd.checksum = ((chunkList 2 pd.data).map readU16).sum % 65536 := by
    intro pd
    rw [PokemonData.checksum]
    have hfold := foldl_add_mod 65536 ((chunkList 2 pd.data).map readU16) 0 (by norm_num)
    rw [List.foldl_map] at hfold
    rw [hfold]
    simp
  refine ⟨hsum, ?_, ?_⟩
  · intro p
    show toLeBytes2 (save_stats p).pokemon_data.checksum = _
    rw [hsum]
    rfl
  · intro off buffer
    rfl

/-- Formalisation of the spec sentence "compare `save_index` of the type-id-0
section in block A versus block B": the save index of the first section of the
block whose type id is 0 (0 when the block has none). -/
def type_id_0_save_index (block : List Section) (buf : Buf) : Nat :=
  match block.find? (fun s => s.id buf = 0) with
  | some s => s.save_index buf
  | none => 0

/-- Block-selection rule exactly as the claim states it, over the type-id-0
save indices. -/
def spec_selects_a (buf : Buf) : Prop :=
  type_id_0_save_index game_save_a buf ≠ 4294967295 ∧
    type_id_0_save_index game_save_a buf > type_id_0_save_index game_save_b buf

/-- Buffer refuting C2 as stated: block A's physically first section carries
type id 1 and save index 5, its type-id-0 section (the second one) carries
save index 0, and block B is all zero. -/
def c2buf : Buf := fun i =>
  if i = 0x0FFC then 5 else if i = 0x0FF4 then 1 else 0

/-- Counterexample to C2 as stated: the code selects block A for `c2buf`
(because the physically first section of A has save index 5 > 0), while the
type-id-0 sections of both blocks have save index 0, so the claim's rule
selects block B. -/
theorem claim_C2_counterexample :
    ¬ (∀ buf : Buf, current_save buf = game_save_a ↔ spec_selects_a buf) := by
  intro hall
  have hsel : current_save c2buf = game_save_a := by decide
  have hspec := (hall c2buf).mp hsel
  rw [spec_selects_a] at hspec
  revert hspec
  decide

/-- C2 (amended): the save file selects block A iff the save index `a` of the
*physically first* section of block A (offset 0, whatever its type id) is not
`u32::MAX` and is strictly greater than the save index `b` of the physically
first section of block B; in every other case, `a = b` and `a = u32::MAX`
included, it selects block B. -/
theorem claim_C2 (buf : Buf) :
    current_save buf = game_save_a ↔
      ((game_save_a.getD 0 default).save_index buf ≠ 4294967295 ∧
        (game_save_b.getD 0 default).save_index buf <
          (game_save_a.getD 0 default).save_index buf) := by
  have hne : game_save_b ≠ game_save_a := by decide
  rw [current_save]
  split_ifs with h1 h2
  · exact iff_of_false hne (fun hc => absurd h1 hc.1)
  · exact iff_of_true rfl ⟨h1, h2⟩
  · exact iff_of_false hne (fun hc => absurd hc.2 h2)

/-- The checksum value the C3 claim specifies: same fold, but over the first
3964 bytes (991 four-byte words) of the section. -/
def c3buf : Buf := fun i => if i = 4000 then 1 else 0

set_option maxRecDepth 40000 in
/-- Counterexample to C3 as stated: `write_checksum` checksums the first
`SECTION_DATA_SIZE = 0x0FF4 = 4084` bytes, not 3964.  On a section whose only
non-zero payload byte sits at relative offset 4000 (inside 4084, outside 3964)
the stored low checksum byte is 1 while the claim's 3964-byte checksum is 0. -/
theorem claim_C3_counterexample :
    ¬ (∀ (s : Section) (buf : Buf),
        (s.write_checksum buf) (s.offset + 0x0FF6) =
          section_checksum_over buf s.offset 991 % 256) := by
  intro hall
  have h := hall ⟨0, 0x1000⟩ c3buf
  have hstore : (Section.write_checksum ⟨0, 0x1000⟩ c3buf) (0 + 0x0FF6) =
      section_checksum_over c3buf 0 1021 % 256 :=
    (write_checksum_spec ⟨0, 0x1000⟩ c3buf).1
  have h1021 : section_checksum_over c3buf 0 1021 = 1 := by decide
  have h991 : section_checksum_over c3buf 0 991 = 0 := by decide
  rw [h, h991] at hstore
  rw [h1021] at hstore
  exact absurd hstore (by norm_num)

/-- C3 (amended): `Section::write_checksum` computes the section checksum over
exactly the first 4084 bytes (`SECTION_DATA_SIZE = 0x0FF4`, i.e. 1021 words)
of the 4096-byte section region — not 3964 bytes as claimed — by summing every
4-byte little-endian word into a 32-bit accumulator with wrap-around, folding
once by adding the upper 16 bits to the lower 16 bits, and storing the 16-bit
result little-endian at the fixed checksum offset 0x0FF6; no other byte
changes. -/
theorem claim_C3 (s : Section) (buf : Buf) :
    (s.write_checksum buf) (s.offset + 0x0FF6) =
        section_checksum_over buf s.offset 1021 % 256 ∧
      (s.write_checksum buf) (s.offset + 0x0FF7) =
        section_checksum_over buf s.offset 1021 / 256 % 256 ∧
      ∀ pos, pos ≠ s.offset + 0x0FF6 → pos ≠ s.offset + 0x0FF7 →
        (s.write_checksum buf) pos = buf pos :=
  write_checksum_spec s buf

theorem xor_lt_65536 (a b : Nat) (ha : a < 65536) (hb : b < 65536) :
    a ^^^ b < 65536 := by
  have h16 : (65536 : Nat) = 2 ^ 16 := by norm_num
  rw [h16] at ha hb ⊢
  exact Nat.xor_lt_two_pow ha hb

theorem foldl_append_extract {α : Type} (u : α → List Nat) (v : α → List Nat) :
    ∀ (l : List α) (a : List Nat),
      l.foldl (fun acc x => acc ++ u x ++ v x) a =
        a ++ l.foldl (fun acc x => acc ++ u x ++ v x) [] := by
  intro l
  induction l with
  | nil => simp
  | cons x xs ih =>
      intro a
      simp only [List.foldl_cons, List.nil_append]
      rw [ih (a ++ u x ++ v x), ih (u x ++ v x)]
      simp [List.append_assoc]

theorem encrypt_pocket_cons (g : String → Option Nat) (key : Nat)
    (e : String × Nat) (rest : List (String × Nat)) :
    encrypt_pocket g (e :: rest) key =
      toLeBytes2 ((g e.1).getD 0 % 65536) ++ toLeBytes2 (e.2 ^^^ key) ++
        encrypt_pocket g rest key := by
  show rest.foldl
      (fun acc x => acc ++ toLeBytes2 ((g x.1).getD 0 % 65536) ++ toLeBytes2 (x.2 ^^^ key))
      ([] ++ toLeBytes2 ((g e.1).getD 0 % 65536) ++ toLeBytes2 (e.2 ^^^ key)) = _
  rw [foldl_append_extract]
  show _ = _ ++ _ ++ rest.foldl
      (fun acc x => acc ++ toLeBytes2 ((g x.1).getD 0 % 65536) ++ toLeBytes2 (x.2 ^^^ key)) []
  simp [List.append_assoc]

theorem decrypt_encrypt_pocket (find_item : Nat → Option String)
    (item_id_g3 : String → Option Nat) (key : Nat) (hkey : key < 65536) :
    ∀ entries : List (String × Nat), (∀ e ∈ entries, e.2 < 65536) →
      decrypt_pocket find_item (encrypt_pocket item_id_g3 entries key) key =
        .ok (entries.map (fun e =>
          ((find_item ((item_id_g3 e.1).getD 0 % 65536)).getD "Unknown", e.2))) := by
  intro entries
  induction entries with
  | nil => intro _; rfl
  | cons e rest ih =>
      intro hq
      have hqe : e.2 < 65536 := hq e (by simp)
      have hqr : ∀ x ∈ rest, x.2 < 65536 := fun x hx => hq x (by simp [hx])
      rw [encrypt_pocket_cons]
      have hshape : toLeBytes2 ((item_id_g3 e.1).getD 0 % 65536) ++ toLeBytes2 (e.2 ^^^ key) ++
          encrypt_pocket item_id_g3 rest key =
          ((item_id_g3 e.1).getD 0 % 65536) % 256 ::
          ((item_id_g3 e.1).getD 0 % 65536) / 256 % 256 ::
          (e.2 ^^^ key) % 256 ::
          (e.2 ^^^ key) / 256 % 256 :: encrypt_pocket item_id_g3 rest key := by
        rw [toLeBytes2, toLeBytes2]
        rfl
      rw [hshape]
      show (match decrypt_pocket find_item (encrypt_pocket item_id_g3 rest key) key with
        | .error er => .error er
        | .ok tail =>
            .ok (((find_item (readU16 [((item_id_g3 e.1).getD 0 % 65536) % 256,
              ((item_id_g3 e.1).getD 0 % 65536) / 256 % 256])).getD "Unknown",
              readU16 [(e.2 ^^^ key) % 256, (e.2 ^^^ key) / 256 % 256] ^^^ key) :: tail) :
          Except Failure (List (String × Nat))) = _
      rw [ih hqr]
      show Except.ok _ = _
      have hid : readU16 [((item_id_g3 e.1).getD 0 % 65536) % 256,
          ((item_id_g3 e.1).getD 0 % 65536) / 256 % 256] = (item_id_g3 e.1).getD 0 % 65536 := by
        show readU16 (toLeBytes2 ((item_id_g3 e.1).getD 0 % 65536)) = _
        exact readU16_toLeBytes2 _ (Nat.mod_lt _ (by norm_num))
      have hqty : readU16 [(e.2 ^^^ key) % 256, (e.2 ^^^ key) / 256 % 256] ^^^ key = e.2 := by
        have : readU16 (toLeBytes2 (e.2 ^^^ key)) = e.2 ^^^ key :=
          readU16_toLeBytes2 _ (xor_lt_65536 _ _ hqe hkey)
        rw [show [(e.2 ^^^ key) % 256, (e.2 ^^^ key) / 256 % 256] =
          toLeBytes2 (e.2 ^^^ key) from rfl, this, Nat.xor_cancel_right]
      rw [hid, hqty]
      rfl

/-- C7: for every entry list and 16-bit security key, decrypting the result of
`encrypt_pocket` with the same key recovers every entry: the quantity exactly
(`quantity XOR key XOR key`), and the item id exactly — the id looked up
during decryption is precisely the id written during encryption, so with a
consistent item table (`find_item` inverting `item_id_g3`) the entry list
itself is returned unchanged. -/
theorem claim_C7 (find_item : Nat → Option String) (item_id_g3 : String → Option Nat)
    (key : Nat) (entries : List (String × Nat)) (hkey : key < 65536)
    (hq : ∀ e ∈ entries, e.2 < 65536) :
    decrypt_pocket find_item (encrypt_pocket item_id_g3 entries key) key =
        .ok (entries.map (fun e =>
          ((find_item ((item_id_g3 e.1).getD 0 % 65536)).getD "Unknown", e.2))) ∧
      ((∀ e ∈ entries, (find_item ((item_id_g3 e.1).getD 0 % 65536)).getD "Unknown" = e.1) →
        decrypt_pocket find_item (encrypt_pocket item_id_g3 entries key) key = .ok entries) := by
  refine ⟨decrypt_encrypt_pocket find_item item_id_g3 key hkey entries hq, fun hname => ?_⟩
  rw [decrypt_encrypt_pocket find_item item_id_g3 key hkey entries hq]
  congr 1
  have : entries.map (fun e =>
      ((find_item ((item_id_g3 e.1).getD 0 % 65536)).getD "Unknown", e.2)) =
      entries.map id := by
    apply List.map_congr_left
    intro e he
    rw [hname e he]
    cases e
    rfl
  rw [this, List.map_id]

/-- Item-name table for the C7 witness. -/
def c7find : Nat → Option String :=
  fun i => if i = 10 then some "a" else if i = 20 then some "b" else none

/-- Item-id table for the C7 witness. -/
def c7id : String → Option Nat :=
  fun n => if n = "a" then some 10 else some 20

/-- Witness for C7 with a concrete two-entry pocket, key 0x1234 and a
two-item table. -/
theorem claim_C7_witness :
    (0x1234 : Nat) < 65536 ∧
      (∀ e ∈ [("a", (3 : Nat)), ("b", 70)], e.2 < 65536) ∧
      (∀ e ∈ [("a", (3 : Nat)), ("b", 70)],
        (c7find ((c7id e.1).getD 0 % 65536)).getD "Unknown" = e.1) ∧
      decrypt_pocket c7find
          (encrypt_pocket c7id [("a", 3), ("b", 70)] 0x1234) 0x1234 =
        .ok [("a", 3), ("b", 70)] :=
  ⟨by norm_num, by decide, by decide,
    (claim_C7 c7find c7id 0x1234 [("a", 3), ("b", 70)] (by norm_num) (by decide)).2 (by decide)⟩

theorem security_key_lower_ok (buf : Buf) (s0 : Section)
    (h0 : get_section buf 0 = some s0) : ∃ k, security_key_lower buf = .ok k := by
  simp only [security_key_lower, security_key, game_code, h0]
  split_ifs <;> exact ⟨_, rfl⟩

theorem game_code_ok (buf : Buf) (s0 : Section) (h0 : get_section buf 0 = some s0) :
    game_code buf = .ok (readU32 (listSlice (s0.data buf) 0x00AC (0x00AC + 4))) := by
  simp only [game_code, h0]

/-- Buffer refuting C9 as stated: every section of the current block (B) has
type id 1, so there is no TrainerInfo (type-id-0) section. -/
def c9buf : Buf := fun i => if i % 4096 = 0x0FF4 then 1 else 0

/-- All-zero buffer: the current block (B) has a type-id-0 section (every
section reads id 0) but no TeamItems (type-id-1) section. -/
def c9buf2 : Buf := fun _ => 0

/-- Counterexample to C9 as stated: with no TrainerInfo section in the current
block, `SaveFile::game_code` panics (`.expect`) instead of surfacing the typed
error `SectionNotFound`, and so do `ot_name` and `ot_id`. -/
theorem claim_C9_counterexample :
    game_code c9buf = .error .panicked ∧
      game_code c9buf ≠ .error (.typed (.sectionNotFound 0)) ∧
      ot_name c9buf = .error .panicked ∧
      ot_id c9buf = .error .panicked := by
  refine ⟨?_, ?_, ?_, ?_⟩ <;> decide

/-- C9 (amended): a missing section of the requested type id is never
silently defaulted, but only some operations surface it as the typed error
`SectionNotFound`.  When the current block has a TrainerInfo section but no
TeamItems section, `read_pocket` and `save_pocket` return
`SectionNotFound(TeamItems)` while `get_party` panics (`.expect`); when the
current block has no TrainerInfo section, `get_party` returns
`SectionNotFound(TrainerInfo)` (via `get_game_code`) while `game_code`,
`ot_name`, `ot_id` and `pocket` panic (`.expect`). -/
theorem claim_C9 :
    (∀ (buf : Buf) (s0 : Section), get_section buf 0 = some s0 →
      get_section buf 1 = none →
      (∀ (find_item : Nat → Option String) (start fin : Nat),
        read_pocket find_item buf start fin = .error (.typed (.sectionNotFound 1))) ∧
      (∀ (item_id_g3 : String → Option Nat) (p : Pocket) (l : List (String × Nat)),
        save_pocket item_id_g3 buf p l = .error (.typed (.sectionNotFound 1))) ∧
      get_party buf = .error .panicked) ∧
    (∀ buf : Buf, get_section buf 0 = none →
      get_party buf = .error (.typed (.sectionNotFound 0)) ∧
      game_code buf = .error .panicked ∧
      ot_name buf = .error .panicked ∧
      ot_id buf = .error .panicked ∧
      (∀ (find_item : Nat → Option String) (p : Pocket),
        pocket find_item buf p = .error .panicked)) := by
  constructor
  · intro buf s0 h0 h1
    obtain ⟨k, hk⟩ := security_key_lower_ok buf s0 h0
    refine ⟨?_, ?_, ?_⟩
    · intro find_item start fin
      simp only [read_pocket, hk, h1]
    · intro item_id_g3 p l
      simp only [save_pocket, game_code, h0, hk, h1]
    · simp only [get_party, get_game_code, h0, h1]
  · intro buf h0
    refine ⟨?_, ?_, ?_, ?_, ?_⟩
    · simp only [get_party, get_game_code, h0]
    · simp only [game_code, h0]
    · simp only [ot_name, h0]
    · simp only [ot_id, h0]
    · intro find_item p
      simp only [pocket, game_code, h0]

/-- Witness for C9: the all-zero buffer has TrainerInfo but no TeamItems
(typed error from `read_pocket`, panic from `get_party`); `c9buf` has no
TrainerInfo (typed error from `get_party`, panic from `game_code`). -/
theorem claim_C9_witness :
    read_pocket (fun _ => none) c9buf2 0 4 = .error (.typed (.sectionNotFound 1)) ∧
      get_party c9buf2 = .error .panicked ∧
      get_party c9buf = .error (.typed (.sectionNotFound 0)) ∧
      game_code c9buf = .error .panicked :=
  ⟨(claim_C9.1 c9buf2 ⟨0xE000, 0x1000⟩ (by decide) (by decide)).1 (fun _ => none) 0 4,
    (claim_C9.1 c9buf2 ⟨0xE000, 0x1000⟩ (by decide) (by decide)).2.2,
    (claim_C9.2 c9buf (by decide)).1,
    (claim_C9.2 c9buf (by decide)).2.1⟩

theorem pocket_address_le (p : Pocket) (gc : Nat) :
    (pocket_address p gc).1 ≤ (pocket_address p gc).2 ∧
      (pocket_address p gc).2 ≤ 4096 := by
  cases p <;> simp only [pocket_address] <;> split_ifs <;> norm_num

/-- C10: a successful `save_pocket` call modifies only bytes inside the single
4096-byte TeamItems section of the current block, and within that section only
the byte range of the pocket `[offset + a1, offset + a2)` (with `(a1, a2)` the
`pocket_address` for the game code) and the 2-byte checksum field at relative
offset 0x0FF6 in the footer of the section: every position outside the pocket range
that is not one of the two checksum bytes is unchanged, and in particular
every byte of the backing buffer outside the section is unchanged. -/
theorem claim_C10 (item_id_g3 : String → Option Nat) (buf : Buf) (p : Pocket)
    (pocket_list : List (String × Nat)) (gc : Nat) (s : Section) (buf2 : Buf)
    (hgc : game_code buf = .ok gc)
    (hs : get_section buf 1 = some s)
    (hok : save_pocket item_id_g3 buf p pocket_list = .ok buf2) :
    (∀ pos,
        pos < s.offset + (pocket_address p gc).1 ∨
          s.offset + (pocket_address p gc).2 ≤ pos →
        pos ≠ s.offset + 0x0FF6 → pos ≠ s.offset + 0x0FF7 →
        buf2 pos = buf pos) ∧
      ∀ pos, pos < s.offset ∨ s.offset + 4096 ≤ pos → buf2 pos = buf pos := by
  have haddr := pocket_address_le p gc
  have hfine : ∀ pos,
      pos < s.offset + (pocket_address p gc).1 ∨
        s.offset + (pocket_address p gc).2 ≤ pos →
      pos ≠ s.offset + 0x0FF6 → pos ≠ s.offset + 0x0FF7 →
      buf2 pos = buf pos := by
    intro pos hpos hne6 hne7
    match hsk : security_key_lower buf with
    | .error e =>
        simp only [save_pocket, hgc, hsk] at hok
        cases hok
    | .ok key =>
        simp only [save_pocket, hgc, hsk, hs] at hok
        by_cases hlen : (encrypt_pocket item_id_g3 pocket_list key).length =
            (pocket_address p gc).2 - (pocket_address p gc).1
        · rw [if_pos hlen] at hok
          cases hok
          rw [(write_checksum_spec s
            (writeBytes buf (s.offset + (pocket_address p gc).1)
              (encrypt_pocket item_id_g3 pocket_list key))).2.2 pos hne6 hne7]
          apply writeBytes_of_outside
          rw [hlen]
          omega
        · rw [if_neg hlen] at hok
          cases hok
  refine ⟨hfine, ?_⟩
  intro pos hpos
  exact hfine pos (by omega) (by omega) (by omega)

/-- Items table for the C10 witness. -/
def c10g : String → Option Nat := fun _ => some 7

/-- A 20-entry pocket: exactly the 80 bytes of the Ruby/Sapphire Items range. -/
def c10list : List (String × Nat) := List.replicate 20 ("a", 1)

/-- Witness buffer for C10: all zero except that the second section of block B
(offset 0xF000) carries type id 1 (TeamItems); block B is current, its first
section (id 0) is TrainerInfo with game code 0 (Ruby/Sapphire, security key
0). -/
def c10buf : Buf := fun i => if i = 0xF000 + 0x0FF4 then 1 else 0

/-- The buffer produced by the successful C10 witness call. -/
def c10res : Buf :=
  Section.write_checksum ⟨0xF000, 0x1000⟩
    (writeBytes c10buf (0xF000 + 0x0560) (encrypt_pocket c10g c10list 0))

set_option maxRecDepth 100000 in
/-- Witness for C10: a successful `save_pocket` of the Items pocket (range
`[0xF000 + 0x0560, 0xF000 + 0x05B0)`) into the TeamItems section at 0xF000
leaves byte 0xF000 (inside the section, outside the pocket range, not a
checksum byte) and byte 0 (outside the section) unchanged. -/
theorem claim_C10_witness :
    game_code c10buf = .ok 0 ∧
      get_section c10buf 1 = some ⟨0xF000, 0x1000⟩ ∧
      save_pocket c10g c10buf Pocket.items c10list = .ok c10res ∧
      c10res 0xF000 = c10buf 0xF000 ∧
      c10res 0 = c10buf 0 :=
  ⟨by decide, by decide, rfl,
    (claim_C10 c10g c10buf Pocket.items c10list 0 ⟨0xF000, 0x1000⟩ c10res
        (by decide) (by decide) rfl).1 0xF000 (by decide) (by decide) (by decide),
    (claim_C10 c10g c10buf Pocket.items c10list 0 ⟨0xF000, 0x1000⟩ c10res
        (by decide) (by decide) rfl).2 0 (Or.inl (by norm_num))⟩

theorem chunkList_of_le (c : Nat) (l : List α) (h0 : 0 < l.length)
    (hc : l.length ≤ c) : chunkList c l = [l] := by
  match c, l, h0 with
  | 0, x :: xs, _ => simp at hc
  | c + 1, x :: xs, _ =>
      rw [chunkList, List.take_of_length_le hc, List.drop_eq_nil_of_le hc]
      rw [chunkList]

theorem readBytes_getD_eq (buf : Buf) (hbytes : ∀ i, buf i < 256) (off n j : Nat)
    (h : j < n) : (readBytes buf off n).getD j 0 = buf (off + j) := by
  rw [readBytes_getD buf off n j h, byteAt, Nat.mod_eq_of_lt (hbytes _)]

theorem pairwise_getD_of_lt {α : Type} (d : α) (R : α → α → Prop) (l : List α)
    (h : l.Pairwise R) (a b : Nat) (hab : a < b) (hb : b < l.length) :
    R (l.getD a d) (l.getD b d) := by
  rw [List.getD_eq_getElem l d (by omega), List.getD_eq_getElem l d hb]
  have := List.pairwise_iff_get.mp h ⟨a, by omega⟩ ⟨b, hb⟩ (by
    rw [Fin.mk_lt_mk]
    exact hab)
  simpa using this

theorem chk_positions (off : Nat → Nat) (pos i j : Nat)
    (hD : ∀ a b, a < 9 → b < 9 → a ≠ b →
      off a + 4096 ≤ off b ∨ off b + 4096 ≤ off a)
    (hi : i < 9) (hj : j < 9) (hlow : off i ≤ pos)
    (hhigh : pos < off i + (if i = 8 then 2000 else 3968)) :
    pos ≠ off j + 4086 ∧ pos ≠ off j + 4087 := by
  have hb : pos < off i + 3968 := by
    have : (if i = 8 then 2000 else 3968) ≤ 3968 := by split <;> omega
    omega
  by_cases hij : i = j
  · subst hij
    omega
  · rcases hD i j hi hj hij with h | h <;> omega

set_option maxHeartbeats 4000000 in
set_option maxRecDepth 100000 in
/-- C6: `PCBuffer::new` concatenates the nine storage sections, taking 3968
bytes from each of the first eight and exactly 2000 bytes (never 3968) from
the final, type-id-13 section; and when the saved Pokémon's bytes equal the
bytes already present at its offset (no modification), the re-split performed
by `PCBuffer::save_pokemon` writes back exactly the original bytes: every byte
of every section's data region is unchanged.  Hypotheses: the buffer holds
`u8` values, the nine sections carry type ids 5..13 in order (as
`init_pc_buffer` arranges) and occupy pairwise-disjoint 4096-byte regions. -/
theorem claim_C6 (secs : List Section) (buf : Buf) (p : Pokemon)
    (hbytes : ∀ i, buf i < 256)
    (hid : secs.map (fun s => s.id buf) = [5, 6, 7, 8, 9, 10, 11, 12, 13])
    (hdisj : secs.Pairwise
      (fun s t => s.offset + 4096 ≤ t.offset ∨ t.offset + 4096 ≤ s.offset)) :
    (PCBuffer.new secs buf).data.length = 33744 ∧
      (∀ i, i < 8 →
        listSlice (PCBuffer.new secs buf).data (3968 * i) (3968 * (i + 1)) =
          readBytes buf (secs.getD i default).offset 3968) ∧
      listSlice (PCBuffer.new secs buf).data (3968 * 8) 33744 =
        readBytes buf (secs.getD 8 default).offset 2000 ∧
      (listSlice p.raw_data 0 80 =
          listSlice (PCBuffer.new secs buf).data p.offset (p.offset + 80) →
        p.offset + 80 ≤ 33744 →
        ∀ pos i, i < 9 → (secs.getD i default).offset ≤ pos →
          pos < (secs.getD i default).offset + (if i = 8 then 2000 else 3968) →
          ((PCBuffer.new secs buf).save_pokemon p buf).2 pos = buf pos) := by
  have hlen9 : secs.length = 9 := by
    have := congrArg List.length hid
    simpa using this
  match secs, hlen9, hid, hdisj with
  | [s0, s1, s2, s3, s4, s5, s6, s7, s8], _, hid, hdisj => ?_
  simp only [List.map_cons, List.map_nil, List.cons.injEq, and_true] at hid
  obtain ⟨h0, h1, h2, h3, h4, h5, h6, h7, h8⟩ := hid
  have hdata : (PCBuffer.new [s0, s1, s2, s3, s4, s5, s6, s7, s8] buf).data =
      readBytes buf s0.offset 3968 ++ (readBytes buf s1.offset 3968 ++
      (readBytes buf s2.offset 3968 ++ (readBytes buf s3.offset 3968 ++
      (readBytes buf s4.offset 3968 ++ (readBytes buf s5.offset 3968 ++
      (readBytes buf s6.offset 3968 ++ (readBytes buf s7.offset 3968 ++
      readBytes buf s8.offset 2000))))))) := by
    simp only [PCBuffer.new, List.foldl_cons, List.foldl_nil,
      h0, h1, h2, h3, h4, h5, h6, h7, h8]
    norm_num [List.append_assoc]
  have hlen : (PCBuffer.new [s0, s1, s2, s3, s4, s5, s6, s7, s8] buf).data.length = 33744 := by
    rw [hdata]
    simp [readBytes_length]
  have hCL : chunkList 3968 (PCBuffer.new [s0, s1, s2, s3, s4, s5, s6, s7, s8] buf).data =
      [readBytes buf s0.offset 3968, readBytes buf s1.offset 3968,
       readBytes buf s2.offset 3968, readBytes buf s3.offset 3968,
       readBytes buf s4.offset 3968, readBytes buf s5.offset 3968,
       readBytes buf s6.offset 3968, readBytes buf s7.offset 3968,
       readBytes buf s8.offset 2000] := by
    rw [hdata]
    rw [chunkList_append_exact 3968 (by norm_num) _ _ (readBytes_length buf s0.offset 3968)]
    rw [chunkList_append_exact 3968 (by norm_num) _ _ (readBytes_length buf s1.offset 3968)]
    rw [chunkList_append_exact 3968 (by norm_num) _ _ (readBytes_length buf s2.offset 3968)]
    rw [chunkList_append_exact 3968 (by norm_num) _ _ (readBytes_length buf s3.offset 3968)]
    rw [chunkList_append_exact 3968 (by norm_num) _ _ (readBytes_length buf s4.offset 3968)]
    rw [chunkList_append_exact 3968 (by norm_num) _ _ (readBytes_length buf s5.offset 3968)]
    rw [chunkList_append_exact 3968 (by norm_num) _ _ (readBytes_length buf s6.offset 3968)]
    rw [chunkList_append_exact 3968 (by norm_num) _ _ (readBytes_length buf s7.offset 3968)]
    rw [chunkList_of_le 3968 _ (by rw [readBytes_length]; norm_num)
      (by rw [readBytes_length]; norm_num)]
  refine ⟨hlen, ?_, ?_, ?_⟩
  · intro i hi
    have hslice : listSlice (PCBuffer.new [s0, s1, s2, s3, s4, s5, s6, s7, s8] buf).data
        (3968 * i) (3968 * (i + 1)) =
        (chunkList 3968 (PCBuffer.new [s0, s1, s2, s3, s4, s5, s6, s7, s8] buf).data).getD i [] := by
      rw [chunkList_getD, listSlice]
      congr 1
      omega
    rw [hslice, hCL]
    interval_cases i <;> rfl
  · have hslice : listSlice (PCBuffer.new [s0, s1, s2, s3, s4, s5, s6, s7, s8] buf).data
        (3968 * 8) 33744 =
        ((PCBuffer.new [s0, s1, s2, s3, s4, s5, s6, s7, s8] buf).data.drop 31744).take 2000 := by
      rw [listSlice]
    have hd8 : ((PCBuffer.new [s0, s1, s2, s3, s4, s5, s6, s7, s8] buf).data.drop 31744).length
        = 2000 := by
      simp only [List.length_drop, hlen]
    have h2000 : ((PCBuffer.new [s0, s1, s2, s3, s4, s5, s6, s7, s8] buf).data.drop 31744).take 2000 =
        ((PCBuffer.new [s0, s1, s2, s3, s4, s5, s6, s7, s8] buf).data.drop 31744).take 3968 := by
      rw [List.take_of_length_le (by omega), List.take_of_length_le (by omega)]
    have hchunk8 := chunkList_getD 3968 (PCBuffer.new [s0, s1, s2, s3, s4, s5, s6, s7, s8] buf).data 8
    rw [hCL] at hchunk8
    rw [hslice, h2000]
    have : (31744 : Nat) = 3968 * 8 := by norm_num
    rw [this, ← hchunk8]
    rfl
  · intro hunmod hoff pos i hi hlow hhigh
    have hsave : ((PCBuffer.new [s0, s1, s2, s3, s4, s5, s6, s7, s8] buf).save_pokemon p buf).2 =
        pc_save_loop [s0, s1, s2, s3, s4, s5, s6, s7, s8] 0
          (chunkList 3968 (PCBuffer.new [s0, s1, s2, s3, s4, s5, s6, s7, s8] buf).data) buf := by
      rw [PCBuffer.save_pokemon]
      have hrepl : replaceSlice (PCBuffer.new [s0, s1, s2, s3, s4, s5, s6, s7, s8] buf).data
          p.offset (listSlice p.raw_data 0 80) =
          (PCBuffer.new [s0, s1, s2, s3, s4, s5, s6, s7, s8] buf).data := by
        rw [hunmod]
        exact replaceSlice_of_slice _ p.offset 80 (by rw [hlen]; omega)
      rw [hrepl]
      rfl
    rw [hsave, hCL]
    apply pc_save_loop_frame _ _ _ _ buf (fun _ => False) ?_ (fun _ _ => rfl) pos (by simp) ?_
    · intro j hj k hk
      simp only [List.length_cons, List.length_nil] at hj
      interval_cases j <;>
        (simp only [List.getD_cons_zero, List.getD_cons_succ, Nat.zero_add] at hk ⊢ ;
          rw [readBytes_length] at hk ;
          exact readBytes_getD_eq buf hbytes _ _ _ hk)
    · intro j hj
      simp only [List.length_cons, List.length_nil] at hj
      have hD : ∀ a b, a < 9 → b < 9 → a ≠ b →
          ([s0, s1, s2, s3, s4, s5, s6, s7, s8].getD a default).offset + 4096 ≤
            ([s0, s1, s2, s3, s4, s5, s6, s7, s8].getD b default).offset ∨
          ([s0, s1, s2, s3, s4, s5, s6, s7, s8].getD b default).offset + 4096 ≤
            ([s0, s1, s2, s3, s4, s5, s6, s7, s8].getD a default).offset := by
        intro a b ha hb hne
        rcases Nat.lt_or_ge a b with hab | hge
        · exact pairwise_getD_of_lt default _ _ hdisj a b hab (by simpa using hb)
        · have hba : b < a := by omega
          rcases pairwise_getD_of_lt default _ _ hdisj b a hba (by simpa using ha) with h | h
          · exact Or.inr h
          · exact Or.inl h
      have hgoal := chk_positions
        (fun k => ([s0, s1, s2, s3, s4, s5, s6, s7, s8].getD k default).offset)
        pos i j hD hi (by omega) hlow hhigh
      have hzero : (0 : Nat) + j = j := Nat.zero_add j
      rw [hzero]
      exact hgoal

instance : Inhabited Pokemon := ⟨Pokemon.new 0 []⟩

theorem pc_slots_length (number : Nat) :
    ∀ (cs : List (List Nat)) (i : Nat), (pc_slots number i cs).length = cs.length := by
  intro cs
  induction cs with
  | nil => intro i; rfl
  | cons c rest ih =>
      intro i
      simp only [pc_slots, List.length_cons, ih (i + 1)]

theorem pc_slots_getD (number : Nat) :
    ∀ (cs : List (List Nat)) (i j : Nat), j < cs.length →
      (pc_slots number i cs).getD j default =
        Pokemon.new (0x0004 + number * 2400 + (i + j) * 80) (cs.getD j []) := by
  intro cs
  induction cs with
  | nil => intro i j hj; simp at hj
  | cons c rest ih =>
      intro i j hj
      match j with
      | 0 => simp [pc_slots]
      | j + 1 =>
          simp only [pc_slots, List.getD_cons_succ]
          rw [ih (i + 1) j (by simpa using Nat.lt_of_succ_lt_succ hj)]
          congr 2
          omega

theorem listSlice_listSlice (l : List Nat) (a b c m : Nat) (h : c + m ≤ b - a) :
    listSlice (listSlice l a b) c (c + m) = listSlice l (a + c) (a + c + m) := by
  simp only [listSlice]
  rw [List.drop_take]
  rw [List.take_take]
  rw [List.drop_drop]
  congr 1
  omega

theorem chunkList_cons_of_pos (c : Nat) (l : List α) (h : 0 < l.length) :
    chunkList (c + 1) l = l.take (c + 1) :: chunkList (c + 1) (l.drop (c + 1)) := by
  cases l with
  | nil => simp at h
  | cons x xs => rw [chunkList]

theorem chunkList_length_le (c : Nat) (l : List α) (k : Nat)
    (h : l.length ≤ c * k) : (chunkList c l).length ≤ k := by
  induction c, l using chunkList.induct generalizing k with
  | case1 c => simp [chunkList]
  | case2 x xs => simp [chunkList]
  | case3 c x xs ih =>
      have hk : 0 < k := by
        by_contra hk0
        have hk' : k = 0 := by omega
        subst hk'
        simp at h
      have hmul : (c + 1) * k = (c + 1) * (k - 1) + (c + 1) := by
        rw [← Nat.mul_succ]
        congr 1
        omega
      have hlen : ((x :: xs).drop (c + 1)).length ≤ (c + 1) * (k - 1) := by
        simp only [List.length_drop, List.length_cons]
        simp only [List.length_cons] at h
        have hms : Nat.succ c * k = (c + 1) * k := rfl
        omega
      have hrec := ih (k - 1) hlen
      rw [chunkList]
      simp only [List.length_cons]
      omega

theorem pc_save_loop_cons (secs : List Section) (i : Nat) (chunk : List Nat)
    (rest : List (List Nat)) (buf : Buf) :
    pc_save_loop secs i (chunk :: rest) buf =
      pc_save_loop secs (i + 1) rest
        ((secs.getD i default).write_checksum
          (writeBytes buf (secs.getD i default).offset chunk)) := rfl

/-- If `pos` lies strictly below the offset of every section the loop will
still touch, the write-back loop leaves `b pos` unchanged. -/
theorem pc_save_loop_untouched (secs : List Section) :
    ∀ (chunks : List (List Nat)) (i : Nat) (b : Buf) (pos : Nat),
      (∀ j, j < chunks.length → pos < (secs.getD (i + j) default).offset) →
      pc_save_loop secs i chunks b pos = b pos := by
  intro chunks
  induction chunks with
  | nil => intro i b pos _; rfl
  | cons chunk rest ih =>
      intro i b pos hpos
      have h0 : pos < (secs.getD i default).offset := by
        have := hpos 0 (by simp)
        simpa using this
      show pc_save_loop secs (i + 1) rest
        ((secs.getD i default).write_checksum
          (writeBytes b (secs.getD i default).offset chunk)) pos = b pos
      rw [ih (i + 1) _ pos ?_]
      · rw [(write_checksum_spec _ _).2.2 pos (by omega) (by omega)]
        exact writeBytes_of_outside _ _ _ _ (Or.inl h0)
      · intro j hj
        have := hpos (j + 1) (by simpa using Nat.succ_lt_succ hj)
        rw [show i + 1 + j = i + (j + 1) from by omega]
        exact this

theorem replaceSlice_length (l : List Nat) (i : Nat) (r : List Nat)
    (h : i + r.length ≤ l.length) : (replaceSlice l i r).length = l.length := by
  simp only [replaceSlice, List.length_append, List.length_take, List.length_drop]
  omega

theorem replaceSlice_getD (l : List Nat) (i : Nat) (r : List Nat) (k : Nat)
    (hi : i ≤ l.length) (hk : k < r.length) :
    (replaceSlice l i r).getD (i + k) 0 = r.getD k 0 := by
  have hti : (l.take i).length = i := by
    rw [List.length_take]
    omega
  rw [replaceSlice, List.append_assoc, List.getD_append_right _ _ _ _ (by omega),
    hti, Nat.add_sub_cancel_left, List.getD_append _ _ _ _ hk]

theorem Pokemon_new_offset (off : Nat) (buffer : List Nat) :
    (Pokemon.new off buffer).offset = off := rfl

theorem pc_box_spec (pc : PCBuffer) (n i : Nat) (hdata : pc.data.length = 33744)
    (hn : n ≤ 13) (hi : i < 30) :
    (pc_box pc n).length = 30 ∧
    (pc_box pc n).getD i default =
      Pokemon.new (0x0004 + n * 2400 + i * 80)
        (listSlice pc.data (0x0004 + n * 2400 + i * 80)
          (0x0004 + n * 2400 + i * 80 + 80)) ∧
    ((pc_box pc n).getD i default).offset = 0x0004 + n * 2400 + i * 80 ∧
    ∀ (p : Pokemon) (buf : Buf),
      ((pc.save_pokemon p buf).1).data =
        replaceSlice pc.data p.offset (listSlice p.raw_data 0 80) := by
  have hwin : (chunkList 2400 (listSlice pc.data 0x0004 0x8344)).getD n [] =
      listSlice pc.data (0x0004 + 2400 * n) (0x0004 + 2400 * n + 2400) := by
    rw [chunkList_getD]
    have h1 : ((listSlice pc.data 0x0004 0x8344).drop (2400 * n)).take 2400 =
        listSlice (listSlice pc.data 0x0004 0x8344) (2400 * n) (2400 * n + 2400) := by
      simp only [listSlice]
      congr 1
      omega
    rw [h1, listSlice_listSlice _ _ _ _ _ (by omega)]
  have hwinlen :
      (listSlice pc.data (0x0004 + 2400 * n) (0x0004 + 2400 * n + 2400)).length = 2400 := by
    simp only [listSlice, List.length_take, List.length_drop, hdata]
    omega
  have hboxlen :
      (chunkList 80 ((chunkList 2400 (listSlice pc.data 0x0004 0x8344)).getD n [])).length
        = 30 := by
    rw [hwin]
    exact chunkList_length_exact 80 _ 30 (by norm_num) (by rw [hwinlen])
  have hchunk : (chunkList 80
        (listSlice pc.data (0x0004 + 2400 * n) (0x0004 + 2400 * n + 2400))).getD i [] =
      listSlice pc.data (0x0004 + n * 2400 + i * 80)
        (0x0004 + n * 2400 + i * 80 + 80) := by
    rw [chunkList_getD]
    have h1 : ((listSlice pc.data (0x0004 + 2400 * n)
          (0x0004 + 2400 * n + 2400)).drop (80 * i)).take 80 =
        listSlice (listSlice pc.data (0x0004 + 2400 * n) (0x0004 + 2400 * n + 2400))
          (80 * i) (80 * i + 80) := by
      simp only [listSlice]
      congr 1
      omega
    rw [h1, listSlice_listSlice _ _ _ _ _ (by omega)]
    have e1 : 0x0004 + 2400 * n + 80 * i = 0x0004 + n * 2400 + i * 80 := by ring
    rw [e1]
  have hslot : (pc_box pc n).getD i default =
      Pokemon.new (0x0004 + n * 2400 + (0 + i) * 80)
        ((chunkList 80 ((chunkList 2400 (listSlice pc.data 0x0004 0x8344)).getD n
          [])).getD i []) := by
    show (pc_slots n 0 (chunkList 80
        ((chunkList 2400 (listSlice pc.data 0x0004 0x8344)).getD n []))).getD i default = _
    exact pc_slots_getD n _ 0 i (by rw [hboxlen]; exact hi)
  refine ⟨?_, ?_, ?_, ?_⟩
  · show (pc_slots n 0 (chunkList 80
        ((chunkList 2400 (listSlice pc.data 0x0004 0x8344)).getD n []))).length = 30
    rw [pc_slots_length, hboxlen]
  · rw [hslot, hwin, hchunk]
    norm_num
  · rw [hslot, Pokemon_new_offset]
    omega
  · intro p buf
    rfl

/-- C8 (amended): for box number `n ≤ 13` and slot `i < 30` of a well-formed
logical PC buffer (33744 bytes), `pc_box n` returns the 30 slots of the
2400-byte window starting 4 bytes into the LOGICAL buffer: slot `i` is decoded
by `Pokemon::new` from bytes `[4 + 2400n + 80i, 4 + 2400n + 80i + 80)` of the
logical buffer, and the offset it is tagged with is that logical-buffer
offset `4 + 2400n + 80i` — not an absolute physical offset of the backing
file; `save_pokemon` then splices the 80 raw bytes back into the logical
buffer at exactly that tagged logical offset. -/
theorem claim_C8 (pc : PCBuffer) (n i : Nat) (hdata : pc.data.length = 33744)
    (hn : n ≤ 13) (hi : i < 30) :
    (pc_box pc n).length = 30 ∧
    (pc_box pc n).getD i default =
      Pokemon.new (0x0004 + n * 2400 + i * 80)
        (listSlice pc.data (0x0004 + n * 2400 + i * 80)
          (0x0004 + n * 2400 + i * 80 + 80)) ∧
    ((pc_box pc n).getD i default).offset = 0x0004 + n * 2400 + i * 80 ∧
    ∀ (p : Pokemon) (buf : Buf),
      ((pc.save_pokemon p buf).1).data =
        replaceSlice pc.data p.offset (listSlice p.raw_data 0 80) :=
  pc_box_spec pc n i hdata hn hi

/-- Nine concrete disjoint 4096-byte sections at physical offsets
`0x1000 (k + 1)`. -/
def pcsecs : List Section :=
  [⟨0x1000, 0x1000⟩, ⟨0x2000, 0x1000⟩, ⟨0x3000, 0x1000⟩, ⟨0x4000, 0x1000⟩,
   ⟨0x5000, 0x1000⟩, ⟨0x6000, 0x1000⟩, ⟨0x7000, 0x1000⟩, ⟨0x8000, 0x1000⟩,
   ⟨0x9000, 0x1000⟩]

/-- Concrete file buffer: section `k + 1` of `pcsecs` carries type id
`5 + k` (little-endian at relative offset 0x0FF4); every other byte is 0. -/
def pcbuf : Buf := fun i => if i % 4096 = 0x0FF4 then (4 + i / 4096) % 256 else 0

theorem pcbuf_lt (i : Nat) : pcbuf i < 256 := by
  show (if i % 4096 = 0x0FF4 then (4 + i / 4096) % 256 else 0) < 256
  split
  · exact Nat.mod_lt _ (by norm_num)
  · norm_num

set_option maxRecDepth 40000 in
theorem pcdata_eq : (PCBuffer.new pcsecs pcbuf).data =
    readBytes pcbuf 0x1000 3968 ++ (readBytes pcbuf 0x2000 3968 ++
    (readBytes pcbuf 0x3000 3968 ++ (readBytes pcbuf 0x4000 3968 ++
    (readBytes pcbuf 0x5000 3968 ++ (readBytes pcbuf 0x6000 3968 ++
    (readBytes pcbuf 0x7000 3968 ++ (readBytes pcbuf 0x8000 3968 ++
    readBytes pcbuf 0x9000 2000))))))) := by
  have e0 : Section.id ⟨0x1000, 0x1000⟩ pcbuf = 5 := by decide
  have e1 : Section.id ⟨0x2000, 0x1000⟩ pcbuf = 6 := by decide
  have e2 : Section.id ⟨0x3000, 0x1000⟩ pcbuf = 7 := by decide
  have e3 : Section.id ⟨0x4000, 0x1000⟩ pcbuf = 8 := by decide
  have e4 : Section.id ⟨0x5000, 0x1000⟩ pcbuf = 9 := by decide
  have e5 : Section.id ⟨0x6000, 0x1000⟩ pcbuf = 10 := by decide
  have e6 : Section.id ⟨0x7000, 0x1000⟩ pcbuf = 11 := by decide
  have e7 : Section.id ⟨0x8000, 0x1000⟩ pcbuf = 12 := by decide
  have e8 : Section.id ⟨0x9000, 0x1000⟩ pcbuf = 13 := by decide
  simp only [pcsecs, PCBuffer.new, List.foldl_cons, List.foldl_nil,
    e0, e1, e2, e3, e4, e5, e6, e7, e8]
  norm_num [List.append_assoc]

set_option maxRecDepth 40000 in
theorem pcdata_len : (PCBuffer.new pcsecs pcbuf).data.length = 33744 := by
  rw [pcdata_eq]
  simp [readBytes_length]

theorem claim_C8_witness :
    (PCBuffer.new pcsecs pcbuf).data.length = 33744 ∧ (0 : Nat) ≤ 13 ∧ (0 : Nat) < 30 ∧
      (pc_box (PCBuffer.new pcsecs pcbuf) 0).length = 30 :=
  ⟨pcdata_len, by norm_num, by norm_num,
    (claim_C8 (PCBuffer.new pcsecs pcbuf) 0 0 pcdata_len (by norm_num) (by norm_num)).1⟩

set_option maxRecDepth 100000 in
/-- Counterexample to the claim that each box slot is tagged with its
absolute physical offset in the backing file buffer, the offset at which
`save_pokemon` writes it back: with nine sections at physical offsets
`0x1000..0x9000`, slot 0 of box 0 is tagged with offset 4 (a logical-buffer
offset), yet `save_pokemon` of an edited slot-0 record changes physical file
position `0x1004` (the fifth byte of the first section's region) and leaves
physical position 4 untouched. -/
theorem claim_C8_counterexample :
    ((pc_box (PCBuffer.new pcsecs pcbuf) 0).getD 0 default).offset = 4 ∧
    ((PCBuffer.new pcsecs pcbuf).save_pokemon
        (Pokemon.new 4 (List.replicate 80 9)) pcbuf).2 0x1004 = 9 ∧
    pcbuf 0x1004 = 0 ∧
    ((PCBuffer.new pcsecs pcbuf).save_pokemon
        (Pokemon.new 4 (List.replicate 80 9)) pcbuf).2 4 = pcbuf 4 := by
  have hp9 : (Pokemon.new 4 (List.replicate 80 9)).raw_data = List.replicate 80 9 :=
    raw_data_new 4 _ (by simp) (by
      intro x hx
      have := List.eq_of_mem_replicate hx
      omega)
  have hr : listSlice (Pokemon.new 4 (List.replicate 80 9)).raw_data 0 80 =
      List.replicate 80 9 := by
    rw [hp9]
    decide
  have hoff : (Pokemon.new 4 (List.replicate 80 9)).offset = 4 := rfl
  have hbufr : (PCBuffer.new pcsecs pcbuf).buffer = pcsecs := rfl
  have hDlen : (PCBuffer.new pcsecs pcbuf).data.length = 33744 := pcdata_len
  have hsave : ∀ pos, ((PCBuffer.new pcsecs pcbuf).save_pokemon
      (Pokemon.new 4 (List.replicate 80 9)) pcbuf).2 pos =
      pc_save_loop pcsecs 0
        (chunkList 3968 (replaceSlice (PCBuffer.new pcsecs pcbuf).data 4
          (List.replicate 80 9))) pcbuf pos := by
    intro pos
    show pc_save_loop (PCBuffer.new pcsecs pcbuf).buffer 0
        (chunkList 0xF80 (replaceSlice (PCBuffer.new pcsecs pcbuf).data
          (Pokemon.new 4 (List.replicate 80 9)).offset
          (listSlice (Pokemon.new 4 (List.replicate 80 9)).raw_data 0 80))) pcbuf pos = _
    rw [hbufr, hoff, hr]
  have hD'len : (replaceSlice (PCBuffer.new pcsecs pcbuf).data 4
      (List.replicate 80 9)).length = 33744 := by
    rw [replaceSlice_length]
    · exact hDlen
    · rw [hDlen]
      simp
  refine ⟨?_, ?_, by decide, ?_⟩
  · have h := (pc_box_spec (PCBuffer.new pcsecs pcbuf) 0 0 pcdata_len
      (by norm_num) (by norm_num)).2.2.1
    simpa using h
  · rw [hsave 0x1004]
    have hcons := chunkList_cons_of_pos 3967
      (replaceSlice (PCBuffer.new pcsecs pcbuf).data 4 (List.replicate 80 9))
      (by rw [hD'len]; norm_num)
    norm_num at hcons
    rw [hcons, pc_save_loop_cons]
    have hrestlen : (chunkList 3968 ((replaceSlice (PCBuffer.new pcsecs pcbuf).data 4
        (List.replicate 80 9)).drop 3968)).length ≤ 8 :=
      chunkList_length_le _ _ 8 (by simp only [List.length_drop, hD'len]; norm_num)
    rw [pc_save_loop_untouched pcsecs _ 1 _ 0x1004 (fun j hj => by
      have hj8 : j < 8 := lt_of_lt_of_le hj hrestlen
      interval_cases j <;> decide)]
    rw [(write_checksum_spec _ _).2.2 0x1004 (by decide) (by decide)]
    have hc0len : ((replaceSlice (PCBuffer.new pcsecs pcbuf).data 4
        (List.replicate 80 9)).take 3968).length = 3968 := by
      rw [List.length_take, hD'len]
      omega
    rw [writeBytes_of_inside _ _ _ 0x1004 (by decide) (by rw [hc0len]; decide)]
    show ((replaceSlice (PCBuffer.new pcsecs pcbuf).data 4
        (List.replicate 80 9)).take 3968).getD 4 0 = 9
    rw [getD_take _ _ _ (by norm_num)]
    have hget := replaceSlice_getD (PCBuffer.new pcsecs pcbuf).data 4
      (List.replicate 80 9) 0 (by rw [hDlen]; norm_num) (by simp)
    simp only [Nat.add_zero] at hget
    rw [hget]
    decide
  · rw [hsave 4]
    have hlen9 : (chunkList 3968 (replaceSlice (PCBuffer.new pcsecs pcbuf).data 4
        (List.replicate 80 9))).length ≤ 9 :=
      chunkList_length_le _ _ 9 (by rw [hD'len]; norm_num)
    exact pc_save_loop_untouched pcsecs _ 0 pcbuf 4 (fun j hj => by
      have hj9 : j < 9 := lt_of_lt_of_le hj hlen9
      interval_cases j <;> decide)

set_option maxRecDepth 100000 in
theorem claim_C6_witness :
    (∀ i, pcbuf i < 256) ∧
    pcsecs.map (fun s => s.id pcbuf) = [5, 6, 7, 8, 9, 10, 11, 12, 13] ∧
    List.Pairwise (fun s t => s.offset + 4096 ≤ t.offset ∨ t.offset + 4096 ≤ s.offset)
      pcsecs ∧
    ((PCBuffer.new pcsecs pcbuf).save_pokemon
        (Pokemon.new 4 (List.replicate 80 0)) pcbuf).2 0x1000 = pcbuf 0x1000 := by
  have hb : ∀ i, pcbuf i < 256 := pcbuf_lt
  have hid : pcsecs.map (fun s => s.id pcbuf) = [5, 6, 7, 8, 9, 10, 11, 12, 13] := by
    decide
  have hdisj : List.Pairwise
      (fun s t => s.offset + 4096 ≤ t.offset ∨ t.offset + 4096 ≤ s.offset) pcsecs := by
    decide
  have hpr : (Pokemon.new 4 (List.replicate 80 0)).raw_data = List.replicate 80 0 :=
    raw_data_new 4 _ (by simp) (by
      intro x hx
      have := List.eq_of_mem_replicate hx
      omega)
  have hunmod : listSlice (Pokemon.new 4 (List.replicate 80 0)).raw_data 0 80 =
      listSlice (PCBuffer.new pcsecs pcbuf).data
        (Pokemon.new 4 (List.replicate 80 0)).offset
        ((Pokemon.new 4 (List.replicate 80 0)).offset + 80) := by
    rw [hpr]
    decide
  exact ⟨hb, hid, hdisj,
    (claim_C6 pcsecs pcbuf (Pokemon.new 4 (List.replicate 80 0)) hb hid hdisj).2.2.2
      hunmod (by decide) 0x1000 0 (by norm_num) (by decide) (by decide)⟩

end PkEdit
